import Mathlib

/-!
Verification development for the resource-state-metrics controller.

This file gives a shallow embedding, in Lean 4, of the metric-rendering
pipeline of the rexagod/resource-state-metrics repository:

* internal/metric.go    — writeMetricTo, validateLabelLengths, appendGVKLabels,
                          writeLabels, writeValue;
* the family renderer   — buildMetricString, inheritMetricAttributes,
                          resolveLabels, sanitizeKey, writeMetricSamples,
                          writeSingleSample, writeExpandedSamples, buildHeaders
                          (current revision of internal/family.go);
* the store             — StoreType with Add, Update, Delete, Replace,
                          generateMetricsForObject, inheritFamilyConfiguration,
                          newStore, and buildMetricHeaders from internal/builder.go;
* the CEL resolver      — Resolve, processResult, resolveList(Inner),
                          resolveMap(Inner), defaultMapping from pkg/resolver/cel.go
                          (the evaluation of a CEL program by the external cel-go
                          library is an oracle parameter);
* the options layer     — the environment-variable override loop of Options.Read;
* the v1alpha1 status   — ResourceMetricsMonitorStatus.Set and its condition tables.

Modelling conventions: Go strings are Lean String values, with character-level
processing done on the underlying character lists (Go indexes bytes; every
string the claims exercise is ASCII, where the two coincide).  Go float64
values are modelled as exact rationals by a num/den pair (GoFloat below);
the fmt "%f" verb is modelled by rounding the exact value to six decimal
places, ties to even.  Go maps are modelled as association lists with
insert-or-replace semantics; Go map iteration order is unspecified, so the
association-list order is an arbitrary but fixed representative, and no
theorem below depends on it in a way the Go program would not.  Fallible Go
functions returning error are modelled with Except.
-/

/-! ## Character and string helpers -/

/-- One escaped character of a Prometheus label value, as produced by the
replacer in writeLabels: backslash, newline and double quote are escaped. -/
def escapeChar (c : Char) : List Char :=
  if c = '\\' then ['\\', '\\']
  else if c = '\n' then ['\\', 'n']
  else if c = '"' then ['\\', '"']
  else [c]

/-- The replacer strings.NewReplacer("\\", "\\\\", "\n", "\\n", "\"", "\\\"")
applied to a whole label value (internal/metric.go, writeLabels). -/
def escapeLabelValue (s : String) : String :=
  String.mk (s.data.flatMap escapeChar)

/-- Decimal digit characters of a natural number. -/
def natChars (n : Nat) : List Char :=
  Nat.toDigits 10 n

/-- Decimal digit characters of an integer, with a leading minus sign when
negative. -/
def intChars (n : Int) : List Char :=
  if n < 0 then '-' :: natChars n.natAbs else natChars n.natAbs

/-! ## The float64 model and the "%f" verb

Go float64 values flowing through writeMetricTo are modelled as exact
rational values, kept as a raw numerator/denominator pair so that every
operation reduces inside the Lean kernel. -/

/-- Model of a Go float64 value: an exact rational num/den with den positive
by construction. -/
structure GoFloat where
  num : Int
  den : Nat
deriving DecidableEq, Repr

/-- The rational n / d (d positive) rounded to the nearest integer, ties to
even — the rounding fmt applies when printing a float with a fixed number of
fractional digits. -/
def roundHalfEven (n : Int) (d : Nat) : Int :=
  let q := Int.ediv n d
  let r := Int.emod n d
  if 2 * r < d then q
  else if (d : Int) < 2 * r then q + 1
  else if Int.emod q 2 = 0 then q else q + 1

/-- The six fractional digits of a number of micro-units below one million,
most significant first (the zero-padded fractional part printed by "%f"). -/
def fracSixChars (n : Nat) : List Char :=
  [ Nat.digitChar (n / 100000 % 10), Nat.digitChar (n / 10000 % 10),
    Nat.digitChar (n / 1000 % 10), Nat.digitChar (n / 100 % 10),
    Nat.digitChar (n / 10 % 10), Nat.digitChar (n % 10) ]

/-- The fmt verb "%f" on a float64 value: sign, integer part, a dot, then
exactly six fractional digits (fmt.Fprintf(writer, "%f", value) in
internal/metric.go). -/
def formatFloat (x : GoFloat) : String :=
  let micro := roundHalfEven (Int.natAbs x.num * 1000000) x.den
  let ip := Int.toNat (Int.ediv micro 1000000)
  let fp := Int.toNat (Int.emod micro 1000000)
  String.mk ((if x.num < 0 then ['-'] else []) ++ natChars ip ++ '.' :: fracSixChars fp)

/-! ## internal/metric.go -/

/-- Error type standing in for Go error values; only presence matters. -/
def GoError : Type := String

/-- validateLabelLengths (internal/metric.go): error when the key and value
slices differ in length. -/
def validateLabelLengths (keys values : List String) : Except GoError Unit :=
  if keys.length ≠ values.length then
    .error "expected labelKeys to be of same length as the resolved labelValues"
  else
    .ok ()

/-- appendGVKLabels (internal/metric.go): append the three labels group,
version, kind at the end of the label set. -/
def appendGVKLabels (keys values : List String) (g v k : String) :
    List String × List String :=
  (keys ++ ["group", "version", "kind"], values ++ [g, v, k])

/-- The body of the loop of writeLabels: sep ++ key ++ "=\"" ++ escaped value
++ "\"" for each pair, with the separator "{" before the first pair and ","
before every later one. -/
def writeLabelsAux : List (String × String) → String → String
  | [], _ => ""
  | (k, v) :: rest, sep =>
      sep ++ k ++ "=\"" ++ escapeLabelValue v ++ "\"" ++ writeLabelsAux rest ","

/-- writeLabels (internal/metric.go): nothing for an empty key set, otherwise
a brace-delimited k="v" list with escaped values.  The Go loop indexes
values by the key index; the caller has already validated equal lengths, so
the pairs are formed by zip. -/
def writeLabels (keys values : List String) : String :=
  if keys.length = 0 then ""
  else writeLabelsAux (keys.zip values) "\x7b" ++ "\x7d"

/-- writeValue (internal/metric.go): a space, the value under the "%f" verb,
then a newline. -/
def writeValue (value : GoFloat) : String :=
  " " ++ formatFloat value ++ "\n"

/-- writeMetricTo (internal/metric.go): validate label lengths, append the
group/version/kind labels, then emit the label block and the value.  The
returned string is what the function writes into the builder on success. -/
def writeMetricTo (g v k : String) (resolvedValue : GoFloat)
    (resolvedLabelKeys resolvedLabelValues : List String) : Except GoError String := do
  let _ ← validateLabelLengths resolvedLabelKeys resolvedLabelValues
  let (ks, vs) := appendGVKLabels resolvedLabelKeys resolvedLabelValues g v k
  .ok (writeLabels ks vs ++ writeValue resolvedValue)

example : formatFloat ⟨42, 1⟩ = "42.000000" := by decide
example : formatFloat ⟨-7, 2⟩ = "-3.500000" := by decide
example : escapeLabelValue "a\nb\"c\\" = "a\\nb\\\"c\\\\" := by decide
example :
    writeMetricTo "group" "version" "kind" ⟨42, 1⟩ [] [] =
      .ok "\x7bgroup=\"group\",version=\"version\",kind=\"kind\"\x7d 42.000000\n" := by
  rfl
example :
    writeMetricTo "g" "v" "k" ⟨42, 1⟩ ["key1", "key2"] ["value1"] =
      .error "expected labelKeys to be of same length as the resolved labelValues" := by
  rfl

/-! ## The unstructured object model

Kubernetes unstructured objects are JSON-like trees: the decoded values a Go
map[string]interface{} can hold after YAML/JSON decoding. -/

mutual
/-- A decoded dynamic value of an unstructured object: string, integer,
float, boolean, null, list, nested map, or a value of a type the pipeline
does not recognise (the default branches of the Go type switches).  The
list and map spines are their own inductive types so that the recursive
walks over them are structural. -/
inductive UVal where
  | str (s : String)
  | int (n : Int)
  | num (x : GoFloat)
  | bool (b : Bool)
  | null
  | list (xs : UList)
  | map (m : UMap)
  | unsupported

/-- The spine of a decoded []interface{} value. -/
inductive UList where
  | nil
  | cons (v : UVal) (rest : UList)

/-- The spine of a decoded map[string]interface{} value. -/
inductive UMap where
  | nil
  | cons (k : String) (v : UVal) (rest : UMap)
end

/-- An unstructured object: the top-level map of the object tree. -/
def UObject : Type := UMap

/-- Convenience constructor for list values. -/
def listV (xs : List UVal) : UList :=
  xs.foldr .cons .nil

/-- Convenience constructor for map values. -/
def mapV (kvs : List (String × UVal)) : UMap :=
  kvs.foldr (fun p acc => .cons p.1 p.2 acc) .nil

/-- Go map write semantics on an association list: replace the value of an
existing key in place, otherwise add the pair. -/
def mapInsert (m : List (String × String)) (k v : String) : List (String × String) :=
  match m with
  | [] => [(k, v)]
  | (k0, v0) :: rest =>
      if k0 = k then (k0, v) :: rest else (k0, v0) :: mapInsert rest k v

/-- Lookup in an association list (Go map read). -/
def mapLookup (m : List (String × String)) (k : String) : Option String :=
  match m with
  | [] => none
  | (k0, v0) :: rest => if k0 = k then some v0 else mapLookup rest k

/-- Split a character list on a separator character (the character-level
core of strings.Split for one-character separators). -/
def splitOnCharAux (sep : Char) : List Char → List Char → List String
  | [], acc => [String.mk acc.reverse]
  | c :: rest, acc =>
      if c = sep then String.mk acc.reverse :: splitOnCharAux sep rest []
      else splitOnCharAux sep rest (c :: acc)

/-- strings.Split(s, sep) for a one-character separator. -/
def splitOnChar (sep : Char) (s : String) : List String :=
  splitOnCharAux sep s.data []

/-- The substring after the last dot of a query —
query[strings.LastIndex(query, ".")+1:] in processResult; the whole string
when there is no dot. -/
def lastDotComponent (s : String) : String :=
  ((splitOnChar '.' s).getLast?).getD s

/-- The characters of k strictly before the last hash —
k[:strings.LastIndex(k, "#")] in resolveLabels (ASCII byte index = character
index for the keys the resolver produces). -/
def beforeLastHash (s : String) : String :=
  match (s.data.reverse.findIdx? (· = '#')) with
  | none => s
  | some i => String.mk (s.data.take (s.data.length - 1 - i))

/-- The unanchored Go regular expression ".+#\\d+" matched against a key
(resolveLabels): true exactly when some hash has at least one non-newline
character directly before it and a decimal digit directly after it. -/
def matchesExpansionKey : List Char → Bool
  | p :: '#' :: d :: rest =>
      (decide (p ≠ '\n') && d.isDigit) || matchesExpansionKey ('#' :: d :: rest)
  | _ :: rest => matchesExpansionKey rest
  | [] => false

/-- Go fmt "%v" of a scalar dynamic value, as used for label values by both
resolvers.  Floats with denominator one print as integers; the shortest-form
float printing of fmt for other floats is abbreviated to num/den here (no
claim exercises a non-integral float label). -/
def sprintValue : UVal → String
  | .str s => s
  | .int n => String.mk (intChars n)
  | .num x =>
      if x.den = 1 then String.mk (intChars x.num)
      else String.mk (intChars x.num) ++ "/" ++ String.mk (natChars x.den)
  | .bool b => if b then "true" else "false"
  | .null => "<nil>"
  | .list _ => ""
  | .map _ => ""
  | .unsupported => ""

/-! ## pkg/resolver/cel.go

The parsing, compilation, cost tracking and evaluation of a CEL program are
performed by the external cel-go library; they enter the model as an oracle
producing either a dynamic value, an evaluation failure, or a timeout of the
race in Resolve. -/

/-- Outcome of running one CEL query through the external cel-go machinery:
a value, a failure (environment, parse, compile, cost or evaluation error),
or the expiry of the wall-clock timer Resolve races against. -/
inductive CELOutcome where
  | ok (v : UVal)
  | err
  | timeout

/-- An evaluation oracle: what the external cel-go library returns for a
query against an object. -/
def CELEval : Type := String → UObject → CELOutcome

namespace CELResolver

/-- defaultMapping (pkg/resolver/cel.go): the sentinel mapping from the
query to the query itself. -/
def defaultMapping (query : String) : List (String × String) :=
  [(query, query)]

mutual

/-- resolveListInner (pkg/resolver/cel.go): scalars become entries keyed
parent#index, nested lists recurse with the same parent, nested maps recurse
through resolveMapInner, anything else is skipped. -/
def resolveListInner (fieldParent : String) : UList → Nat → List (String × String) →
    List (String × String)
  | .nil, _, out => out
  | .cons v rest, i, out =>
      let out' :=
        match v with
        | .str s =>
            mapInsert out (fieldParent ++ "#" ++ String.mk (natChars i)) s
        | .int n =>
            mapInsert out (fieldParent ++ "#" ++ String.mk (natChars i)) (sprintValue (.int n))
        | .num x =>
            mapInsert out (fieldParent ++ "#" ++ String.mk (natChars i)) (sprintValue (.num x))
        | .bool b =>
            mapInsert out (fieldParent ++ "#" ++ String.mk (natChars i)) (sprintValue (.bool b))
        | .list xs => resolveListInner fieldParent xs 0 out
        | .map m => resolveMapInner m out
        | .null => out
        | .unsupported => out
      resolveListInner fieldParent rest (i + 1) out'

/-- resolveMapInner (pkg/resolver/cel.go): scalar entries keep their own
key, nested lists recurse with the entry key as parent, nested maps recurse,
anything else is skipped. -/
def resolveMapInner : UMap → List (String × String) →
    List (String × String)
  | .nil, out => out
  | .cons k v rest, out =>
      let out' :=
        match v with
        | .str s => mapInsert out k s
        | .int n => mapInsert out k (sprintValue (.int n))
        | .num x => mapInsert out k (sprintValue (.num x))
        | .bool b => mapInsert out k (sprintValue (.bool b))
        | .list xs => resolveListInner k xs 0 out
        | .map m => resolveMapInner m out
        | .null => out
        | .unsupported => out
      resolveMapInner rest out'

end

/-- resolveList (pkg/resolver/cel.go): start the list walk with an empty
output map. -/
def resolveList (fieldParent : String) (xs : UList) : List (String × String) :=
  resolveListInner fieldParent xs 0 []

/-- resolveMap (pkg/resolver/cel.go): start the map walk with an empty
output map. -/
def resolveMap (m : UMap) : List (String × String) :=
  resolveMapInner m []

/-- processResult (pkg/resolver/cel.go): scalars and null map the query to
the printed value, lists fan out under the last dotted component of the
query, maps fan out under their own keys, anything else yields the
sentinel. -/
def processResult (query : String) (out : UVal) : List (String × String) :=
  let fieldParent := lastDotComponent query
  match out with
  | .bool b => [(query, sprintValue (.bool b))]
  | .num x => [(query, sprintValue (.num x))]
  | .int n => [(query, sprintValue (.int n))]
  | .str s => [(query, sprintValue (.str s))]
  | .map m => resolveMap m
  | .list xs => resolveList fieldParent xs
  | .null => [(query, "<nil>")]
  | .unsupported => defaultMapping query

/-- Resolve (pkg/resolver/cel.go): run the query through the oracle; any
failure or timeout yields the sentinel defaultMapping, success is handed to
processResult. -/
def Resolve (eval : CELEval) (query : String) (obj : UObject) : List (String × String) :=
  match eval query obj with
  | .ok out => processResult query out
  | .err => defaultMapping query
  | .timeout => defaultMapping query

end CELResolver

/-! ## The unstructured resolver

Modelled from the spec: the implementation file of the unstructured resolver
(pkg/resolver/unstructured.go) is not among the provided sources — only its
tests and callers are.  Per section 4.1 of the specification it accepts
dot-separated paths, walks the nested object map step by step, returns the
stringified value when every segment resolves and the leaf is a scalar
(nil printing as "<nil>"), and returns the sentinel mapping from the
expression to itself on any failure to traverse. -/

/-- Lookup of a key in an object map. -/
def uLookup (m : UMap) (k : String) : Option UVal :=
  match m with
  | .nil => none
  | .cons k0 v0 rest => if k0 = k then some v0 else uLookup rest k

/-- A step-by-step walk of the object tree along a dot-path. -/
def walkPath : UVal → List String → Option UVal
  | v, [] => some v
  | .map m, seg :: rest =>
      match uLookup m seg with
      | some v => walkPath v rest
      | none => none
  | _, _ :: _ => none

namespace UnstructuredResolver

/-- Modelled from the spec: Resolve of the unstructured resolver.  A
dot-path that reaches a scalar yields the singleton mapping from the
expression to the printed scalar; everything else — missing segment,
non-map intermediate, composite leaf, bracket syntax — yields the sentinel
mapping from the expression to itself. -/
def Resolve (query : String) (obj : UObject) : List (String × String) :=
  match walkPath (.map obj) (splitOnChar '.' query) with
  | some (.str s) => [(query, sprintValue (.str s))]
  | some (.int n) => [(query, sprintValue (.int n))]
  | some (.num x) => [(query, sprintValue (.num x))]
  | some (.bool b) => [(query, sprintValue (.bool b))]
  | some .null => [(query, "<nil>")]
  | _ => [(query, query)]

end UnstructuredResolver

/-! ## The family renderer (current revision of internal/family.go) -/

/-- The metric prefix constant of internal/family.go, in convention with
kube-state-metrics. -/
def kubeCustomResource : String := "kube_customresource_"

/-- The metric type constant of internal/family.go: all metrics are
gauges. -/
def metricTypeGauge : String := "gauge"

/-- Word characters of the Go regular expression class \w. -/
def isWordChar (c : Char) : Bool :=
  c.isAlpha || c.isDigit || c = '_'

/-- ASCII lower-casing of one character. -/
def asciiLower (c : Char) : Char :=
  if c.isUpper then Char.ofNat (c.toNat + 32) else c

/-- Model of strcase.ToSnake of the external iancoleman/strcase library on
word characters: an underscore is inserted before an upper-case letter that
follows a lower-case letter or digit, and all letters are lower-cased. -/
def toSnakeAux : Option Char → List Char → List Char
  | _, [] => []
  | prev, c :: rest =>
      if c.isUpper then
        match prev with
        | some p =>
            if p.isLower || p.isDigit then '_' :: asciiLower c :: toSnakeAux (some c) rest
            else asciiLower c :: toSnakeAux (some c) rest
        | none => asciiLower c :: toSnakeAux (some c) rest
      else c :: toSnakeAux (some c) rest

/-- sanitizeKey (internal/family.go): replace every non-word character with
an underscore, then convert to snake_case (the snake_case step stands in
for the external strcase library). -/
def sanitizeKey (s : String) : String :=
  String.mk (toSnakeAux none (s.data.map (fun c => if isWordChar c then c else '_')))

/-- ResolverType of internal/family.go is a string type; its constants. -/
def resolverTypeCEL : String := "cel"

/-- The unstructured resolver constant. -/
def resolverTypeUnstructured : String := "unstructured"

/-- The empty resolver constant (absence of a resolver). -/
def resolverTypeNone : String := ""

/-- MetricType, the configuration of a single time-series template: label
keys, label value expressions, a value expression and an optional
resolver. -/
structure MetricType where
  labelKeys : List String
  labelValues : List String
  value : String
  resolver : String
deriving Repr

/-- FamilyType, a metric family: name, help, metrics, optional resolver and
family-wide label keys/values.  The CEL cost limit, timeout and telemetry
fields of the source configure the external cel-go machinery and are
represented by the evaluation oracle instead. -/
structure FamilyType where
  name : String
  help : String
  metrics : List MetricType
  resolver : String
  labelKeys : List String
  labelValues : List String
deriving Repr

/-- inheritMetricAttributes (internal/family.go): family label keys and
values are appended onto the metric (the Go function mutates the metric in
place; the model returns the mutated metric). -/
def inheritMetricAttributes (f : FamilyType) (metric : MetricType) : MetricType :=
  { metric with
    labelKeys := metric.labelKeys ++ f.labelKeys
    labelValues := metric.labelValues ++ f.labelValues }

/-- The two resolver implementations the resolver factory can return. -/
inductive ResolverInstance where
  | unstructured
  | cel

/-- The resolver method of FamilyType: metric resolver, else family
resolver, else the unstructured default; unknown names are an error. -/
def FamilyType.getResolver (f : FamilyType) (inheritedResolver : String) :
    Except GoError ResolverInstance :=
  let r := if inheritedResolver = resolverTypeNone then f.resolver else inheritedResolver
  if r = resolverTypeNone then .ok .unstructured
  else if r = resolverTypeUnstructured then .ok .unstructured
  else if r = resolverTypeCEL then .ok .cel
  else .error "error resolving metric: unknown resolver"

/-- Dispatch of the Resolver interface over the chosen implementation. -/
def resolveWith (eval : CELEval) : ResolverInstance → String → UObject → List (String × String)
  | .unstructured => UnstructuredResolver.Resolve
  | .cel => CELResolver.Resolve eval

/-- Append a value at the end of the bucket of a key, creating the bucket
when absent (resolvedExpandedLabelSet[key] = append(...) in
resolveLabels). -/
def bucketAppend (m : List (String × List String)) (k v : String) :
    List (String × List String) :=
  match m with
  | [] => [(k, [v])]
  | (k0, vs) :: rest =>
      if k0 = k then (k0, vs ++ [v]) :: rest else (k0, vs) :: bucketAppend rest k v

/-- The inner loop of resolveLabels over the entries of one resolved
labelset when the query itself is not among its keys: expansion keys are
bucketed under their parent name, all other entries are flattened with the
metric label key as a name prefix. -/
def flattenEntries (labelKey : String) :
    List (String × String) →
    List String × List String × List (String × List String) →
    List String × List String × List (String × List String)
  | [], st => st
  | (k, v) :: rest, (ks, vs, exp) =>
      if matchesExpansionKey k.data then
        flattenEntries labelKey rest (ks, vs, bucketAppend exp (beforeLastHash k) v)
      else
        flattenEntries labelKey rest
          (ks ++ [sanitizeKey (labelKey ++ k)], vs ++ [v], exp)

/-- The outer loop of resolveLabels over the query/key pairs. -/
def resolveLabelsLoop (resolve : String → UObject → List (String × String)) (obj : UObject) :
    List (String × String) →
    List String × List String × List (String × List String) →
    List String × List String × List (String × List String)
  | [], st => st
  | (query, labelKey) :: rest, (ks, vs, exp) =>
      let resolvedLabelset := resolve query obj
      match mapLookup resolvedLabelset query with
      | some val =>
          resolveLabelsLoop resolve obj rest
            (ks ++ [sanitizeKey labelKey], vs ++ [val], exp)
      | none =>
          resolveLabelsLoop resolve obj rest (flattenEntries labelKey resolvedLabelset (ks, vs, exp))

/-- resolveLabels (current internal/family.go): after the label length
validation guard — on mismatch the function logs and returns empty results
— each label value expression is resolved; a non-composite result
contributes one label under the sanitized key, a composite result is
flattened or bucketed for expansion. -/
def resolveLabels (metric : MetricType)
    (resolve : String → UObject → List (String × String)) (obj : UObject) :
    List String × List String × List (String × List String) :=
  match validateLabelLengths metric.labelKeys metric.labelValues with
  | .error _ => ([], [], [])
  | .ok _ =>
      resolveLabelsLoop resolve obj (metric.labelValues.zip metric.labelKeys) ([], [], [])

/-! ## Sample emission (current internal/family.go) -/

/-- Byte-wise lexicographic order on strings, as used by slices.Sort on a
string slice: the lexicographic order of the character sequences (code
points and UTF-8 bytes order identically). -/
def strLe (a b : String) : Prop := a.data ≤ b.data

instance : DecidableRel strLe := fun a b => (inferInstance : Decidable (a.data ≤ b.data))

instance : IsTotal String strLe := ⟨fun a b => le_total a.data b.data⟩

instance : IsTrans String strLe := ⟨fun _ _ _ h h2 => le_trans h h2⟩

/-- slices.Sort of a string slice, ascending. -/
def sortStrings (l : List String) : List String :=
  List.insertionSort strLe l

/-- The longest bucket length of the expanded label set (the
seriesToGenerate count of writeExpandedSamples). -/
def maxBucketLen (expanded : List (String × List String)) : Nat :=
  expanded.foldl (fun acc p => max acc p.2.length) 0

/-- Lookup of a bucket (Go map read; a missing key reads as the nil
slice). -/
def bucketLookup (m : List (String × List String)) (k : String) : List String :=
  match m with
  | [] => []
  | (k0, vs) :: rest => if k0 = k then vs else bucketLookup rest k

/-- Replacement of a bucket in place (Go map write of an existing key). -/
def bucketSet (m : List (String × List String)) (k : String) (vs : List String) :
    List (String × List String) :=
  match m with
  | [] => [(k, vs)]
  | (k0, vs0) :: rest =>
      if k0 = k then (k0, vs) :: rest else (k0, vs0) :: bucketSet rest k vs

/-- One pass of the inner loop of writeExpandedSamples over the expansion
keys: take the front element of each bucket (the empty string when the
bucket is exhausted) and return the advanced buckets. -/
def takeFromBuckets : List String → List (String × List String) →
    List String × List (String × List String)
  | [], exp => ([], exp)
  | k :: ks, exp =>
      match bucketLookup exp k with
      | [] =>
          ("" :: (takeFromBuckets ks exp).1, (takeFromBuckets ks exp).2)
      | v :: vtl =>
          (v :: (takeFromBuckets ks (bucketSet exp k vtl)).1,
            (takeFromBuckets ks (bucketSet exp k vtl)).2)

/-- The per-series loop of writeExpandedSamples: for each series, pop one
value from every bucket, call writeFunc on a clone of the keys and the
ephemeral values, stop on the first error. -/
def expandedLoop (writeFunc : List String → List String → Except GoError String)
    (allKeys labelValues expansionKeys : List String) :
    Nat → List (String × List String) → Except GoError String
  | 0, _ => .ok ""
  | n + 1, exp =>
      match writeFunc allKeys (labelValues ++ (takeFromBuckets expansionKeys exp).1) with
      | .error e => .error e
      | .ok s =>
          match expandedLoop writeFunc allKeys labelValues expansionKeys n
              (takeFromBuckets expansionKeys exp).2 with
          | .error e => .error e
          | .ok rest => .ok (s ++ rest)

/-- writeExpandedSamples (current internal/family.go): append the expansion
keys to the label keys, count the longest bucket, sort every bucket, then
emit one sample per series.  The Go function receives writeFunc, which
appends one rendered sample to the metric builder; the model returns the
concatenation of the appended samples. -/
def writeExpandedSamples (writeFunc : List String → List String → Except GoError String)
    (labelKeys labelValues : List String) (expanded : List (String × List String)) :
    Except GoError String :=
  let allKeys := labelKeys ++ expanded.map Prod.fst
  let seriesToGenerate := maxBucketLen expanded
  let sortedExpanded := expanded.map (fun p => (p.1, sortStrings p.2))
  expandedLoop writeFunc allKeys labelValues (expanded.map Prod.fst) seriesToGenerate
    sortedExpanded

/-- writeSingleSample (current internal/family.go): one writeFunc call. -/
def writeSingleSample (writeFunc : List String → List String → Except GoError String)
    (keys values : List String) : Except GoError String :=
  writeFunc keys values

/-- apiVersion parsed into group and version: no slash means an empty group
(schema.ParseGroupVersion of the external apimachinery library). -/
def parseGroupVersion (apiVersion : String) : String × String :=
  match splitOnChar '/' apiVersion with
  | [v] => ("", v)
  | [g, v] => (g, v)
  | _ => ("", "")

/-- GroupVersionKind of an unstructured object, read from its apiVersion
and kind fields. -/
def groupVersionKind (obj : UObject) : String × String × String :=
  let apiVersion :=
    match uLookup obj "apiVersion" with
    | some (.str s) => s
    | _ => ""
  let kind :=
    match uLookup obj "kind" with
    | some (.str s) => s
    | _ => ""
  let (g, v) := parseGroupVersion apiVersion
  (g, v, kind)

/-- Modelled from the spec: the parse of the resolved value string into the
float64 consumed by writeMetricTo.  The provided revision of
internal/metric.go takes an already-parsed float64 while the current family
renderer resolves the value to a string; the revision holding this glue is
not among the provided sources.  Per the specification the value expression
produces a numeric string and an unresolvable value drops the metric, so a
non-numeric string is a parse failure.  Accepted: optional sign, decimal
digits, optional fractional digits. -/
def digitsToNatAux : List Char → Nat → Option Nat
  | [], acc => some acc
  | c :: rest, acc =>
      if c.isDigit then digitsToNatAux rest (acc * 10 + (c.toNat - 48)) else none

/-- parseValue: see digitsToNatAux; the sign, integer and fractional parts
of a plain decimal numeral, as an exact GoFloat. -/
def parseValue (s : String) : Option GoFloat :=
  let (neg, cs) :=
    match s.data with
    | '-' :: r => (true, r)
    | '+' :: r => (false, r)
    | r => (false, r)
  let signed : Nat → Nat → GoFloat := fun n d => ⟨if neg then -(n : Int) else (n : Int), d⟩
  match splitOnCharAux '.' cs [] with
  | [ip] =>
      if ip.data.isEmpty then none
      else (digitsToNatAux ip.data 0).map (fun n => signed n 1)
  | [ip, fp] =>
      if ip.data.isEmpty && fp.data.isEmpty then none
      else
        match digitsToNatAux ip.data 0, digitsToNatAux fp.data 0 with
        | some ni, some nf =>
            let pow := 10 ^ fp.data.length
            some (signed (ni * pow + nf) pow)
        | _, _ => none
  | _ => none

/-- The writeMetric closure of writeMetricSamples: the sample name prefixed
with kube_customresource_, then the output of writeMetricTo. -/
def writeMetric (name g v k : String) (value : GoFloat) (keys values : List String) :
    Except GoError String :=
  match writeMetricTo g v k value keys values with
  | .ok rest => .ok (kubeCustomResource ++ name ++ rest)
  | .error e => .error e

/-- writeMetricSamples (current internal/family.go): group, version and
kind come from the object; the resolved value string is parsed into the
float64 the metric writer takes (see parseValue); a single sample is
written when no expansion occurred, else one sample per expansion
series. -/
def writeMetricSamples (name : String) (obj : UObject) (keys values : List String)
    (expanded : List (String × List String)) (value : String) : Except GoError String :=
  let g := (groupVersionKind obj).1
  let v := (groupVersionKind obj).2.1
  let k := (groupVersionKind obj).2.2
  match parseValue value with
  | none => .error "error writing metric value"
  | some q =>
      if expanded.isEmpty then
        writeSingleSample (writeMetric name g v k q) keys values
      else
        writeExpandedSamples (writeMetric name g v k q) keys values expanded

/-- The loop of buildMetricString over the metrics of a family: inherit the
family attributes, pick the resolver, resolve labels and value, emit the
samples; a metric is skipped — contributing nothing — when the resolver is
unknown, the value expression is absent from its resolution, or writing
fails.  The mutated metrics are carried out (the Go loop mutates each
metric through its pointer). -/
def buildMetricStringLoop (eval : CELEval) (f : FamilyType) (obj : UObject) :
    List MetricType → String → String × List MetricType
  | [], out => (out, [])
  | m :: rest, out =>
      let m' := inheritMetricAttributes f m
      match f.getResolver m'.resolver with
      | .error _ =>
          let (o, ms) := buildMetricStringLoop eval f obj rest out
          (o, m' :: ms)
      | .ok inst =>
          let (ks, vs, exp) := resolveLabels m' (resolveWith eval inst) obj
          match mapLookup (resolveWith eval inst m'.value obj) m'.value with
          | none =>
              let (o, ms) := buildMetricStringLoop eval f obj rest out
              (o, m' :: ms)
          | some resolvedValue =>
              match writeMetricSamples f.name obj ks vs exp resolvedValue with
              | .error _ =>
                  let (o, ms) := buildMetricStringLoop eval f obj rest out
                  (o, m' :: ms)
              | .ok s =>
                  let (o, ms) := buildMetricStringLoop eval f obj rest (out ++ s)
                  (o, m' :: ms)

/-- buildMetricString (current internal/family.go): the concatenated sample
text of every metric of the family against the object, together with the
family as left mutated by the render. -/
def buildMetricString (eval : CELEval) (f : FamilyType) (obj : UObject) :
    String × FamilyType :=
  let (out, ms) := buildMetricStringLoop eval f obj f.metrics ""
  (out, { f with metrics := ms })

/-- buildHeaders (current internal/family.go): the HELP and TYPE header
block of a family. -/
def FamilyType.buildHeaders (f : FamilyType) : String :=
  "# HELP " ++ kubeCustomResource ++ f.name ++ " " ++ f.help ++ "\n" ++
    "# TYPE " ++ kubeCustomResource ++ f.name ++ " " ++ metricTypeGauge

/-! ## The store (current internal/store.go) and internal/builder.go -/

/-- The UID of an unstructured object (metadata.uid; empty when absent). -/
def objectUID (obj : UObject) : String :=
  match uLookup obj "metadata" with
  | some (.map m) =>
      match uLookup m "uid" with
      | some (.str s) => s
      | _ => ""
  | _ => ""

/-- An argument of the cache-store contract: either an object the external
runtime converter turns into an unstructured map, or a value it rejects
(convertToUnstructured and meta.Accessor are external apimachinery
calls and enter the model through this split). -/
inductive ObjectI where
  | unstructuredObj (o : UObject)
  | invalid (reason : String)

/-- convertToUnstructured (current internal/store.go): conversion through
the external runtime converter; rejected values produce an error. -/
def convertToUnstructured : ObjectI → Except GoError UObject
  | .unstructuredObj o => .ok o
  | .invalid r => .error r

/-- StoreType (current internal/store.go): the cached rendered fragments
keyed by object UID, the precomputed family headers, and the configuration
fields the claims exercise.  The lock, logger and CEL limit fields carry no
behaviour in the sequential model. -/
structure StoreType where
  metrics : List (String × List String)
  headers : List String
  families : List FamilyType
  resolver : String
  labelKeys : List String
  labelValues : List String

/-- newStore (current internal/store.go): an empty metrics map with the
given headers, families and store-wide inheritance configuration. -/
def newStore (headers : List String) (families : List FamilyType) (resolver : String)
    (labelKeys labelValues : List String) : StoreType :=
  { metrics := [], headers := headers, families := families, resolver := resolver,
    labelKeys := labelKeys, labelValues := labelValues }

/-- inheritFamilyConfiguration (current internal/store.go): the store
resolver fills an absent family resolver, and store-wide label keys/values
are appended onto the family (the Go function mutates the family in place;
the model returns the mutated family). -/
def inheritFamilyConfiguration (f : FamilyType) (s : StoreType) : FamilyType :=
  { f with
    resolver := if f.resolver = resolverTypeNone then s.resolver else f.resolver
    labelKeys := f.labelKeys ++ s.labelKeys
    labelValues := f.labelValues ++ s.labelValues }

/-- The loop of generateMetricsForObject: the i-th output entry is the
rendered text of the i-th family; the families are carried out as mutated
by the inheritance and the render. -/
def generateMetricsLoop (eval : CELEval) (s : StoreType) (obj : UObject) :
    List FamilyType → List String × List FamilyType
  | [] => ([], [])
  | f :: rest =>
      let f' := inheritFamilyConfiguration f s
      ((buildMetricString eval f' obj).1 :: (generateMetricsLoop eval s obj rest).1,
        (buildMetricString eval f' obj).2 :: (generateMetricsLoop eval s obj rest).2)

/-- generateMetricsForObject (current internal/store.go): one rendered
fragment per family, in family order. -/
def StoreType.generateMetricsForObject (s : StoreType) (eval : CELEval) (obj : UObject) :
    List String × StoreType :=
  ((generateMetricsLoop eval s obj s.families).1,
    { s with families := (generateMetricsLoop eval s obj s.families).2 })

/-- Go map write on the metrics map. -/
def metricsSet (m : List (String × List String)) (k : String) (v : List String) :
    List (String × List String) :=
  match m with
  | [] => [(k, v)]
  | (k0, v0) :: rest =>
      if k0 = k then (k0, v) :: rest else (k0, v0) :: metricsSet rest k v

/-- Go map delete on the metrics map. -/
def metricsDelete (m : List (String × List String)) (k : String) :
    List (String × List String) :=
  match m with
  | [] => []
  | (k0, v0) :: rest =>
      if k0 = k then rest else (k0, v0) :: metricsDelete rest k

/-- Go map read on the metrics map. -/
def metricsLookup (m : List (String × List String)) (k : String) : Option (List String) :=
  match m with
  | [] => none
  | (k0, v0) :: rest => if k0 = k then some v0 else metricsLookup rest k

/-- Add (current internal/store.go): convert the object, render the
fragments for every family, store them under the object UID. -/
def StoreType.Add (s : StoreType) (eval : CELEval) (objectI : ObjectI) :
    Except GoError StoreType :=
  match convertToUnstructured objectI with
  | .error e => .error e
  | .ok obj =>
      .ok { (s.generateMetricsForObject eval obj).2 with
        metrics := metricsSet (s.generateMetricsForObject eval obj).2.metrics (objectUID obj)
          (s.generateMetricsForObject eval obj).1 }

/-- Update (current internal/store.go): defers to Add. -/
def StoreType.Update (s : StoreType) (eval : CELEval) (objectI : ObjectI) :
    Except GoError StoreType :=
  s.Add eval objectI

/-- Delete (current internal/store.go): drop the metrics of the object UID;
values the external accessor rejects produce an error. -/
def StoreType.Delete (s : StoreType) (objectI : ObjectI) : Except GoError StoreType :=
  match objectI with
  | .invalid r => .error r
  | .unstructuredObj obj => .ok { s with metrics := metricsDelete s.metrics (objectUID obj) }

/-- Replace (current internal/store.go): Add every item in order; a failed
Add is logged and the loop continues (the failing Add returned before
mutating the store); Replace itself always returns nil. -/
def StoreType.Replace (s : StoreType) (eval : CELEval) (items : List ObjectI) :
    Except GoError StoreType :=
  .ok (items.foldl
    (fun st item =>
      match st.Add eval item with
      | .ok st' => st'
      | .error _ => st)
    s)

/-- buildMetricHeaders (internal/builder.go): one header block per
family. -/
def buildMetricHeaders (metricFamilies : List FamilyType) : List String :=
  metricFamilies.map FamilyType.buildHeaders

/-- ensureResolver (internal/builder.go): the unstructured default. -/
def ensureResolver (resolver : String) : String :=
  if resolver = resolverTypeNone then resolverTypeUnstructured else resolver

/-- buildStore (internal/builder.go), restricted to the store construction
itself: headers are built from the families, the resolver defaulted, and
the store created empty.  The list/watch, reflector and CEL limit plumbing
is external wiring. -/
def buildStore (metricFamilies : List FamilyType) (resolver : String)
    (labelKeys labelValues : List String) : StoreType :=
  newStore (buildMetricHeaders metricFamilies) metricFamilies (ensureResolver resolver)
    labelKeys labelValues

/-! ## Options.Read and the environment-variable overrides -/

/-- ASCII upper-casing of one character. -/
def asciiUpper (c : Char) : Char :=
  if c.isLower then Char.ofNat (c.toNat - 32) else c

/-- The override variable of a flag:
RSM_ + strings.ReplaceAll(strings.ToUpper(name), "-", "_"). -/
def flagEnvVarName (name : String) : String :=
  "RSM_" ++ String.mk ((name.data.map asciiUpper).map (fun c => if c = '-' then '_' else c))

/-- A registered flag: its name and the default value string flag.Parse
starts from (f.DefValue). -/
structure FlagSpec where
  name : String
  defValue : String

/-- The value string of a flag after flag.Parse: the command-line value
when the flag was given, else the default. -/
def flagValueAfterParse (args : List (String × String)) (f : FlagSpec) : String :=
  (mapLookup args f.name).getD f.defValue

/-- The body of the flag.VisitAll closure of Options.Read: a flag whose
value differs from its default is kept (environment variables do not take
precedence), otherwise a set RSM_ variable is written into the flag. -/
def applyEnvOverride (env : List (String × String)) (f : FlagSpec) (value : String) : String :=
  if value ≠ f.defValue then value
  else
    match mapLookup env (flagEnvVarName f.name) with
    | some v => v
    | none => value

/-- The value a flag holds after Options.Read: parse, then the override
loop. -/
def readFlagValue (args env : List (String × String)) (f : FlagSpec) : String :=
  applyEnvOverride env f (flagValueAfterParse args f)

/-! ## ResourceMetricsMonitorStatus.Set (pkg/apis/resourcestatemetrics/v1alpha1) -/

/-- metav1.Condition: type, status (a string: "True" / "False" /
"Unknown"), reason, message, last transition time (an abstract instant) and
observed generation. -/
structure MetaCondition where
  condType : String
  status : String
  reason : String
  message : String
  lastTransitionTime : Nat
  observedGeneration : Int
deriving DecidableEq, Repr

/-- The condition status string constant metav1.ConditionTrue. -/
def conditionStatusTrue : String := "True"

/-- ConditionType (v1alpha1): the two recognised condition types, indexed
by the iota constants ConditionTypeProcessed and ConditionTypeFailed. -/
def ConditionType : List String := ["Processed", "Failed"]

/-- ConditionMessageTrue (v1alpha1). -/
def ConditionMessageTrue : List String :=
  ["Resource configuration has been processed successfully", "Resource failed to process"]

/-- ConditionMessageFalse (v1alpha1). -/
def ConditionMessageFalse : List String :=
  ["Resource configuration is yet to be processed", "N/A"]

/-- ConditionReasonTrue (v1alpha1). -/
def ConditionReasonTrue : List String := ["EventHandlerSucceeded", "EventHandlerFailed"]

/-- ConditionReasonFalse (v1alpha1). -/
def ConditionReasonFalse : List String := ["EventHandlerRunning", "N/A"]

/-- The reason the tables assign for a condition type index and status. -/
def tableReason (i : Nat) (status : String) : String :=
  if status = conditionStatusTrue then ConditionReasonTrue.getD i ""
  else ConditionReasonFalse.getD i ""

/-- The message the tables assign for a condition type index and status. -/
def tableMessage (i : Nat) (status : String) : String :=
  if status = conditionStatusTrue then ConditionMessageTrue.getD i ""
  else ConditionMessageFalse.getD i ""

/-- The update loop of Set: the first existing condition of the same type
is replaced in place; otherwise the condition is appended. -/
def replaceOrAppendCondition (conds : List MetaCondition) (c : MetaCondition) :
    List MetaCondition :=
  match conds with
  | [] => [c]
  | c0 :: rest =>
      if c0.condType = c.condType then c :: rest
      else c0 :: replaceOrAppendCondition rest c

/-- ResourceMetricsMonitorStatus: the conditions slice. -/
structure ResourceMetricsMonitorStatus where
  conditions : List MetaCondition
deriving DecidableEq, Repr

/-- Set (v1alpha1): look the condition type up in ConditionType
(slices.Index), take the reason and message from the fixed tables for the
condition status, stamp the transition time and observed generation, then
replace the existing condition of that type in place or append.  A type
absent from ConditionType makes slices.Index return -1 and the table access
panic, modelled as none. -/
def ResourceMetricsMonitorStatus.Set (status : ResourceMetricsMonitorStatus)
    (generation : Int) (condition : MetaCondition) (now : Nat) :
    Option ResourceMetricsMonitorStatus :=
  match List.indexOf? condition.condType ConditionType with
  | none => none
  | some i =>
      let condition' :=
        { condition with
          reason := tableReason i condition.status
          message := tableMessage i condition.status
          lastTransitionTime := now
          observedGeneration := generation }
      some ⟨replaceOrAppendCondition status.conditions condition'⟩

/-! ## Claim-side shapes

The shapes the specification describes, written independently of the
emitting code: one rendered k="v" pair, a comma-joined pair list, the three
trailing group/version/kind pairs, and a full sample line. -/

/-- One k="v" label pair as the exposition format prints it. -/
def renderedPair (p : String × String) : String :=
  p.1 ++ "=\"" ++ escapeLabelValue p.2 ++ "\""

/-- Comma-joined rendering of a list of strings. -/
def joinComma : List String → String
  | [] => ""
  | [x] => x
  | x :: y :: rest => x ++ "," ++ joinComma (y :: rest)

/-- The three labels appended to every sample: group, version and kind of
the source object. -/
def gvkPairs (g v k : String) : List (String × String) :=
  [("group", g), ("version", v), ("kind", k)]

/-- A full sample line as the specification describes it: the
kube_customresource_ prefixed family name, a brace-delimited comma-joined
label set, a space, the value under "%f", and a newline. -/
def renderedSample (name _g _v _k : String) (q : GoFloat) (pairs : List (String × String)) :
    String :=
  kubeCustomResource ++ name ++ "\x7b" ++ joinComma (pairs.map renderedPair) ++ "\x7d" ++
    " " ++ formatFloat q ++ "\n"

/-- Concatenation of a list of rendered fragments. -/
def concatAll : List String → String
  | [] => ""
  | s :: rest => s ++ concatAll rest

/-! ## Helper lemmas on the writers -/

theorem writeLabelsAux_eq (ps : List (String × String)) (sep : String) (h : ps ≠ []) :
    writeLabelsAux ps sep = sep ++ joinComma (ps.map renderedPair) := by
  induction ps generalizing sep with
  | nil => exact absurd rfl h
  | cons p rest ih =>
      obtain ⟨pk, pv⟩ := p
      match rest with
      | [] =>
          show writeLabelsAux [(pk, pv)] sep = _
          simp only [writeLabelsAux, List.map, joinComma, renderedPair]
          simp [String.append_assoc]
      | (qk, qv) :: rest2 =>
          show writeLabelsAux ((pk, pv) :: (qk, qv) :: rest2) sep = _
          rw [show writeLabelsAux ((pk, pv) :: (qk, qv) :: rest2) sep =
            sep ++ pk ++ "=\"" ++ escapeLabelValue pv ++ "\"" ++
              writeLabelsAux ((qk, qv) :: rest2) "," from rfl]
          rw [ih "," (by simp)]
          simp only [List.map, joinComma, renderedPair]
          simp only [String.append_assoc]

theorem writeMetricTo_ok (g v k : String) (q : GoFloat) (keys values : List String)
    (h : keys.length = values.length) :
    writeMetricTo g v k q keys values =
      .ok ("\x7b" ++ joinComma ((keys.zip values ++ gvkPairs g v k).map renderedPair) ++ "\x7d" ++
        " " ++ formatFloat q ++ "\n") := by
  have hv : validateLabelLengths keys values = .ok () := by
    simp [validateLabelLengths, h]
  have hzip : (keys ++ ["group", "version", "kind"]).zip (values ++ [g, v, k]) =
      keys.zip values ++ gvkPairs g v k := by
    rw [List.zip_append h]; rfl
  have hne : ¬((keys ++ ["group", "version", "kind"]).length = 0) := by
    simp
  simp only [writeMetricTo, hv, bind, Except.bind, appendGVKLabels, writeValue,
    writeLabels, hne, if_false, hzip, Except.ok.injEq]
  rw [writeLabelsAux_eq _ _ (by simp [gvkPairs])]
  simp only [String.append_assoc]

theorem writeMetricTo_err (g v k : String) (q : GoFloat) (keys values : List String)
    (h : ¬(keys.length = values.length)) :
    writeMetricTo g v k q keys values =
      .error "expected labelKeys to be of same length as the resolved labelValues" := by
  simp [writeMetricTo, validateLabelLengths, h, bind, Except.bind]

theorem writeMetric_ok_iff (name g v k : String) (q : GoFloat) (keys values : List String)
    (out : String) :
    writeMetric name g v k q keys values = .ok out ↔
      keys.length = values.length ∧
        out = renderedSample name g v k q (keys.zip values ++ gvkPairs g v k) := by
  constructor
  · intro hok
    by_cases h : keys.length = values.length
    · refine ⟨h, ?_⟩
      rw [writeMetric, writeMetricTo_ok g v k q keys values h] at hok
      simp only [Except.ok.injEq] at hok
      rw [← hok]
      simp only [renderedSample, String.append_assoc]
    · rw [writeMetric, writeMetricTo_err g v k q keys values h] at hok
      exact absurd hok (by simp)
  · rintro ⟨h, rfl⟩
    rw [writeMetric, writeMetricTo_ok g v k q keys values h]
    simp only [renderedSample, String.append_assoc]

theorem digitChar_mod_isDigit (n : Nat) : (Nat.digitChar (n % 10)).isDigit = true := by
  have h : n % 10 < 10 := Nat.mod_lt _ (by decide)
  set m := n % 10 with hm
  interval_cases m <;> rfl

theorem formatFloat_dot_six (x : GoFloat) :
    ∃ s t, formatFloat x = s ++ "." ++ t ∧ t.length = 6 ∧ t.data.all Char.isDigit = true := by
  refine ⟨String.mk ((if x.num < 0 then ['-'] else []) ++
      natChars (Int.toNat (Int.ediv (roundHalfEven (Int.natAbs x.num * 1000000) x.den) 1000000))),
    String.mk (fracSixChars (Int.toNat (Int.emod (roundHalfEven (Int.natAbs x.num * 1000000) x.den) 1000000))),
    ?_, ?_, ?_⟩
  · apply String.ext
    simp [formatFloat, String.data_append]
  · rfl
  · simp [fracSixChars, List.all, digitChar_mod_isDigit]

/-- Claim C10: for every call to writeMetricTo with matching key/value
lengths, the output carries a brace-delimited label block over a non-empty
pair list — group, version and kind are appended unconditionally before the
labels are written — and a metric with an empty resolved label set yields
exactly the sample {group="...",version="...",kind="..."} value, never a
sample without a label block. -/
theorem writeMetricTo_always_has_label_block (g v k : String) (q : GoFloat)
    (keys values : List String) (h : keys.length = values.length) :
    writeMetricTo g v k q keys values =
      .ok ("\x7b" ++ joinComma ((keys.zip values ++ gvkPairs g v k).map renderedPair) ++ "\x7d" ++
        " " ++ formatFloat q ++ "\n") ∧
    keys.zip values ++ gvkPairs g v k ≠ [] ∧
    writeMetricTo g v k q [] [] =
      .ok ("\x7b" ++ ("group" ++ "=\"" ++ escapeLabelValue g ++ "\"" ++ "," ++
        ("version" ++ "=\"" ++ escapeLabelValue v ++ "\"" ++ "," ++
          ("kind" ++ "=\"" ++ escapeLabelValue k ++ "\""))) ++ "\x7d" ++
        " " ++ formatFloat q ++ "\n") := by
  refine ⟨writeMetricTo_ok g v k q keys values h, by simp [gvkPairs], ?_⟩
  rw [writeMetricTo_ok g v k q [] [] rfl]
  simp only [List.zip, List.zipWith, List.nil_append, gvkPairs, List.map, renderedPair,
    joinComma, Except.ok.injEq]

/-- Claim C10 witness. -/
theorem writeMetricTo_always_has_label_block_witness :
    writeMetricTo "g" "v" "k" ⟨42, 1⟩ [] [] =
      .ok ("\x7b" ++ joinComma (([] ++ gvkPairs "g" "v" "k").map renderedPair) ++ "\x7d" ++
        " " ++ formatFloat ⟨42, 1⟩ ++ "\n") ∧
    ([] : List (String × String)) ++ gvkPairs "g" "v" "k" ≠ [] :=
  ⟨(writeMetricTo_always_has_label_block "g" "v" "k" ⟨42, 1⟩ [] [] rfl).1,
    (writeMetricTo_always_has_label_block "g" "v" "k" ⟨42, 1⟩ [] [] rfl).2.1⟩

/-! ## The shape of every emitted sample (claim C1) -/

theorem expandedLoop_ok_shape (name g v k : String) (q : GoFloat)
    (ak lv eks : List String) :
    ∀ (n : Nat) (exp : List (String × List String)) (out : String),
    expandedLoop (writeMetric name g v k q) ak lv eks n exp = .ok out →
    ∃ pl : List (List (String × String)),
      out = concatAll (pl.map (renderedSample name g v k q)) ∧
      ∀ ps ∈ pl, ∃ front, ps = front ++ gvkPairs g v k := by
  intro n
  induction n with
  | zero =>
      intro exp out hout
      have h0 : ("" : String) = out := by
        simpa [expandedLoop] using hout
      exact ⟨[], by simp [← h0, concatAll], by simp⟩
  | succ m ih =>
      intro exp out hout
      rw [expandedLoop] at hout
      rcases hcall : writeMetric name g v k q ak
          (lv ++ (takeFromBuckets eks exp).1) with e | s
      · rw [hcall] at hout; exact absurd hout (by simp)
      · rw [hcall] at hout
        rcases hrest : expandedLoop (writeMetric name g v k q) ak lv eks m
            (takeFromBuckets eks exp).2 with e2 | rest
        · rw [hrest] at hout; exact absurd hout (by simp)
        · rw [hrest] at hout
          simp only [Except.ok.injEq] at hout
          obtain ⟨h1, h2⟩ := (writeMetric_ok_iff name g v k q ak
            (lv ++ (takeFromBuckets eks exp).1) s).mp hcall
          obtain ⟨pl, hpl, hfronts⟩ := ih (takeFromBuckets eks exp).2 rest hrest
          refine ⟨(ak.zip (lv ++ (takeFromBuckets eks exp).1) ++ gvkPairs g v k) :: pl, ?_, ?_⟩
          · simp only [List.map, concatAll, ← hout, h2, hpl]
          · intro ps hps
            rcases List.mem_cons.mp hps with hps | hps
            · exact ⟨ak.zip (lv ++ (takeFromBuckets eks exp).1), by rw [hps]⟩
            · exact hfronts ps hps

/-- Claim C1: every sample line emitted by writeMetricSamples is the prefix
kube_customresource_, the family name, a brace-delimited comma-joined set
of k="v" pairs with backslash, newline and double quote escaped in the
values, a space, the resolved value under the "%f" verb — an integer part,
a dot, then exactly six decimal digits — and a newline; and the three
labels group, version, kind of the source object are appended as the last
three labels of every sample. -/
theorem writeMetricSamples_sample_format (name : String) (obj : UObject)
    (keys values : List String) (expanded : List (String × List String))
    (value out : String)
    (hout : writeMetricSamples name obj keys values expanded value = .ok out) :
    ∃ (q : GoFloat) (pl : List (List (String × String))),
      parseValue value = some q ∧
      out = concatAll (pl.map (renderedSample name (groupVersionKind obj).1
        (groupVersionKind obj).2.1 (groupVersionKind obj).2.2 q)) ∧
      (∀ ps ∈ pl, ∃ front, ps = front ++ gvkPairs (groupVersionKind obj).1
        (groupVersionKind obj).2.1 (groupVersionKind obj).2.2) ∧
      (∃ s t, formatFloat q = s ++ "." ++ t ∧ t.length = 6 ∧
        t.data.all Char.isDigit = true) := by
  rw [writeMetricSamples] at hout
  split at hout
  · exact absurd hout (by simp)
  · rename_i q hq
    refine ⟨q, ?_⟩
    split at hout
    · rename_i hexp
      obtain ⟨h1, h2⟩ := (writeMetric_ok_iff name (groupVersionKind obj).1
        (groupVersionKind obj).2.1 (groupVersionKind obj).2.2 q keys values out).mp hout
      refine ⟨[keys.zip values ++ gvkPairs (groupVersionKind obj).1
          (groupVersionKind obj).2.1 (groupVersionKind obj).2.2], hq, ?_, ?_,
        formatFloat_dot_six q⟩
      · simp only [List.map, concatAll, h2]
        simp
      · intro ps hps
        simp only [List.mem_singleton] at hps
        exact ⟨keys.zip values, hps⟩
    · rename_i hexp
      rw [writeExpandedSamples] at hout
      obtain ⟨pl, hpl, hfronts⟩ := expandedLoop_ok_shape name (groupVersionKind obj).1
        (groupVersionKind obj).2.1 (groupVersionKind obj).2.2 q _ _ _ _ _ _ hout
      exact ⟨pl, hq, hpl, hfronts, formatFloat_dot_six q⟩

/-- A concrete object for the claim C1 witness. -/
def objC1 : UObject := mapV [("apiVersion", .str "v1"), ("kind", .str "Pod")]

/-- Claim C1 witness. -/
theorem writeMetricSamples_sample_format_witness :
    ∃ (q : GoFloat) (pl : List (List (String × String))),
      parseValue "42" = some q ∧
      "kube_customresource_f\x7ba=\"b\",group=\"\",version=\"v1\",kind=\"Pod\"\x7d 42.000000\n" =
        concatAll (pl.map (renderedSample "f"
          (groupVersionKind objC1).1
          (groupVersionKind objC1).2.1
          (groupVersionKind objC1).2.2 q)) ∧
      (∀ ps ∈ pl, ∃ front, ps = front ++ gvkPairs
          (groupVersionKind objC1).1
          (groupVersionKind objC1).2.1
          (groupVersionKind objC1).2.2) ∧
      (∃ s t, formatFloat q = s ++ "." ++ t ∧ t.length = 6 ∧
        t.data.all Char.isDigit = true) :=
  writeMetricSamples_sample_format "f" objC1
    ["a"] ["b"] [] "42" _ (by rfl)

/-! ## The expansion series (claim C3) -/

theorem takeFromBuckets_skip (ks : List String) (k : String) (w : List String)
    (exp : List (String × List String)) (hk : k ∉ ks) :
    takeFromBuckets ks ((k, w) :: exp) =
      ((takeFromBuckets ks exp).1, (k, w) :: (takeFromBuckets ks exp).2) := by
  induction ks generalizing exp with
  | nil => rfl
  | cons k2 ks2 ih =>
      have hne : ¬(k = k2) := fun he => hk (he ▸ List.mem_cons_self k2 ks2)
      have hk2 : k ∉ ks2 := fun hm => hk (List.mem_cons_of_mem k2 hm)
      rcases hbl : bucketLookup exp k2 with _ | ⟨v, vtl⟩
      · simp only [takeFromBuckets, bucketLookup, if_neg hne, hbl, ih _ hk2]
      · simp only [takeFromBuckets, bucketLookup, if_neg hne, hbl, bucketSet,
          ih _ hk2]

theorem takeFromBuckets_all (exp : List (String × List String))
    (h : (exp.map Prod.fst).Nodup) :
    takeFromBuckets (exp.map Prod.fst) exp =
      (exp.map (fun p => p.2.headD ""), exp.map (fun p => (p.1, p.2.tail))) := by
  induction exp with
  | nil => rfl
  | cons p rest ih =>
      obtain ⟨k, vs⟩ := p
      simp only [List.map_cons, List.nodup_cons] at h
      obtain ⟨hk, hrest⟩ := h
      cases vs with
      | nil =>
          simp only [List.map_cons, takeFromBuckets, bucketLookup, eq_self_iff_true,
            if_true, takeFromBuckets_skip _ _ _ _ hk, ih hrest]
          rfl
      | cons v vtl =>
          simp only [List.map_cons, takeFromBuckets, bucketLookup, eq_self_iff_true,
            if_true, bucketSet, takeFromBuckets_skip _ _ _ _ hk, ih hrest]
          rfl

theorem headD_drop (l : List String) (i : Nat) :
    (l.drop i).headD "" = l.getD i "" := by
  rw [List.headD_eq_head?, List.head?_drop, List.getD_eq_getElem?_getD]

theorem expandedLoop_pure (F : List String → List String → String)
    (ak lv : List String) (exp0 : List (String × List String))
    (h : (exp0.map Prod.fst).Nodup) :
    ∀ (n : Nat) (i : Nat),
    expandedLoop (fun a b => .ok (F a b)) ak lv (exp0.map Prod.fst) n
        (exp0.map (fun p => (p.1, p.2.drop i))) =
      .ok (concatAll ((List.range n).map
        (fun j => F ak (lv ++ exp0.map (fun p => p.2.getD (i + j) ""))))) := by
  intro n
  induction n with
  | zero => intro i; simp [expandedLoop, concatAll]
  | succ m ih =>
      intro i
      have hkeys : (exp0.map (fun p => (p.1, p.2.drop i))).map Prod.fst = exp0.map Prod.fst := by
        simp [List.map_map]
      have hndp : ((exp0.map (fun p => (p.1, p.2.drop i))).map Prod.fst).Nodup := by
        rw [hkeys]; exact h
      have htake := takeFromBuckets_all (exp0.map (fun p => (p.1, p.2.drop i))) hndp
      rw [hkeys] at htake
      rw [expandedLoop, htake]
      have hvals : (exp0.map (fun p => (p.1, p.2.drop i))).map (fun p => p.2.headD "") =
          exp0.map (fun p => p.2.getD (i + 0) "") := by
        simp only [List.map_map]
        exact List.map_congr_left (fun p _ => by simp [headD_drop])
      have hnext : (exp0.map (fun p => (p.1, p.2.drop i))).map (fun p => (p.1, p.2.tail)) =
          exp0.map (fun p => (p.1, p.2.drop (i + 1))) := by
        simp only [List.map_map]
        exact List.map_congr_left (fun p _ => by simp [List.tail_drop])
      rw [hvals, hnext, ih (i + 1)]
      simp only [List.range_succ_eq_map, List.map_cons, concatAll, List.map_map,
        Except.ok.injEq]
      have harg : ∀ pf : String × List String → String × List String, True := fun _ => trivial
      have hshift : (List.range m).map
            ((fun j => F ak (lv ++ exp0.map (fun p => p.2.getD (i + j) ""))) ∘ Nat.succ) =
          (List.range m).map (fun j => F ak (lv ++ exp0.map (fun p => p.2.getD (i + 1 + j) ""))) := by
        exact List.map_congr_left (fun j _ => by
          have : i + Nat.succ j = i + 1 + j := by omega
          simp [Function.comp, this])
      rw [hshift]

theorem bucketAppend_keys (m : List (String × List String)) (k v : String) :
    (bucketAppend m k v).map Prod.fst =
      if k ∈ m.map Prod.fst then m.map Prod.fst else m.map Prod.fst ++ [k] := by
  induction m with
  | nil => simp [bucketAppend]
  | cons p rest ih =>
      obtain ⟨k0, vs⟩ := p
      by_cases hk : k0 = k
      · subst hk
        simp [bucketAppend]
      · simp only [bucketAppend, if_neg hk, List.map_cons, ih]
        have hmem : (k ∈ k0 :: rest.map Prod.fst) ↔ k ∈ rest.map Prod.fst := by
          constructor
          · intro hx
            rcases List.mem_cons.mp hx with he | hx2
            · exact absurd he.symm hk
            · exact hx2
          · exact List.mem_cons_of_mem _
        by_cases hm : k ∈ rest.map Prod.fst
        · simp [hm, hmem]
        · simp [hm, hmem]

theorem bucketAppend_nodup (m : List (String × List String)) (k v : String)
    (h : (m.map Prod.fst).Nodup) : ((bucketAppend m k v).map Prod.fst).Nodup := by
  rw [bucketAppend_keys]
  by_cases hm : k ∈ m.map Prod.fst
  · rw [if_pos hm]; exact h
  · rw [if_neg hm]
    refine List.Nodup.append h (List.nodup_singleton k) ?_
    intro a ha hb
    rw [List.mem_singleton] at hb
    exact hm (hb ▸ ha)

theorem flattenEntries_nodup (labelKey : String) (entries : List (String × String))
    (ks vs : List String) (exp : List (String × List String))
    (h : (exp.map Prod.fst).Nodup) :
    (((flattenEntries labelKey entries (ks, vs, exp)).2.2).map Prod.fst).Nodup := by
  induction entries generalizing ks vs exp with
  | nil => exact h
  | cons e rest ih =>
      obtain ⟨ek, ev⟩ := e
      by_cases hm : matchesExpansionKey ek.data
      · simp only [flattenEntries, hm, if_true]
        exact ih _ _ _ (bucketAppend_nodup _ _ _ h)
      · simp only [flattenEntries, hm, if_false]
        exact ih _ _ _ h

theorem resolveLabelsLoop_nodup (resolve : String → UObject → List (String × String))
    (obj : UObject) (qs : List (String × String)) (ks vs : List String)
    (exp : List (String × List String)) (h : (exp.map Prod.fst).Nodup) :
    (((resolveLabelsLoop resolve obj qs (ks, vs, exp)).2.2).map Prod.fst).Nodup := by
  induction qs generalizing ks vs exp with
  | nil => exact h
  | cons q rest ih =>
      obtain ⟨query, labelKey⟩ := q
      rcases hlk : mapLookup (resolve query obj) query with _ | val
      · simp only [resolveLabelsLoop, hlk]
        have h2 := flattenEntries_nodup labelKey (resolve query obj) ks vs exp h
        rcases hfe : flattenEntries labelKey (resolve query obj) (ks, vs, exp) with ⟨ks2, vs2, exp2⟩
        rw [hfe] at h2
        exact ih _ _ _ h2
      · simp only [resolveLabelsLoop, hlk]
        exact ih _ _ _ h

theorem resolveLabels_nodup (metric : MetricType)
    (resolve : String → UObject → List (String × String)) (obj : UObject) :
    (((resolveLabels metric resolve obj).2.2).map Prod.fst).Nodup := by
  rw [resolveLabels]
  rcases hv : validateLabelLengths metric.labelKeys metric.labelValues with e | u
  · simp
  · cases u
    exact resolveLabelsLoop_nodup _ _ _ _ _ _ (by simp)

/-- Claim C3: for the expanded label set produced by label resolution, the
samples emitted by writeExpandedSamples are exactly one writeFunc call per
series, the series count being the longest expansion bucket; the i-th
sample takes the i-th element of every ascending-sorted bucket, a bucket
shorter than the longest contributing the empty string; and each call
receives its own fully-determined key/value lists (the model passes values,
so later samples cannot observe mutation of earlier ones). -/
theorem writeExpandedSamples_sorted_series (F : List String → List String → String)
    (metric : MetricType) (resolve : String → UObject → List (String × String))
    (obj : UObject) :
    writeExpandedSamples (fun a b => .ok (F a b))
        (resolveLabels metric resolve obj).1
        (resolveLabels metric resolve obj).2.1
        (resolveLabels metric resolve obj).2.2 =
      .ok (concatAll
        ((List.range (maxBucketLen (resolveLabels metric resolve obj).2.2)).map
          (fun i => F
            ((resolveLabels metric resolve obj).1 ++
              ((resolveLabels metric resolve obj).2.2).map Prod.fst)
            ((resolveLabels metric resolve obj).2.1 ++
              ((resolveLabels metric resolve obj).2.2).map
                (fun p => (sortStrings p.2).getD i ""))))) ∧
    ∀ p ∈ (resolveLabels metric resolve obj).2.2,
      (sortStrings p.2).Sorted strLe ∧ (sortStrings p.2).Perm p.2 := by
  constructor
  · have hnd := resolveLabels_nodup metric resolve obj
    rcases hR : resolveLabels metric resolve obj with ⟨ks, vs, exp⟩
    rw [hR] at hnd
    simp only
    rw [writeExpandedSamples]
    have hkeys0 : (exp.map (fun p => (p.1, sortStrings p.2))).map Prod.fst =
        exp.map Prod.fst := by
      simp [List.map_map]
    have hnd0 : ((exp.map (fun p => (p.1, sortStrings p.2))).map Prod.fst).Nodup := by
      rw [hkeys0]; exact hnd
    have hdrop : exp.map (fun p => (p.1, sortStrings p.2)) =
        (exp.map (fun p => (p.1, sortStrings p.2))).map (fun p => (p.1, p.2.drop 0)) := by
      simp
    have hmain := expandedLoop_pure F (ks ++ exp.map Prod.fst) vs
      (exp.map (fun p => (p.1, sortStrings p.2))) hnd0 (maxBucketLen exp) 0
    rw [hkeys0, ← hdrop] at hmain
    rw [hmain]
    simp only [Except.ok.injEq]
    congr 1
    apply List.map_congr_left
    intro j _
    have hvals : (exp.map (fun p => (p.1, sortStrings p.2))).map
        (fun p => p.2.getD (0 + j) "") = exp.map (fun p => (sortStrings p.2).getD j "") := by
      simp only [List.map_map]
      exact List.map_congr_left (fun p _ => by simp)
    rw [hvals]
  · intro p _
    exact ⟨List.sorted_insertionSort strLe p.2, List.perm_insertionSort strLe p.2⟩

/-- A concrete metric for the claim C3 witness. -/
def metricC3 : MetricType := ⟨["v"], ["o.spec.versions"], "1", ""⟩

/-- A concrete resolver outcome for the claim C3 witness: a two-element
list expansion delivered out of order. -/
def resolveC3 : String → UObject → List (String × String) := fun q _ =>
  if q = "o.spec.versions" then [("versions#0", "v2"), ("versions#1", "v1")] else [(q, q)]

/-- A concrete sample renderer for the claim C3 witness. -/
def funC3 : List String → List String → String := fun a b =>
  joinComma a ++ "|" ++ joinComma b

/-- Claim C3 witness. -/
theorem writeExpandedSamples_sorted_series_witness :
    (writeExpandedSamples (fun a b => .ok (funC3 a b))
        (resolveLabels metricC3 resolveC3 UMap.nil).1
        (resolveLabels metricC3 resolveC3 UMap.nil).2.1
        (resolveLabels metricC3 resolveC3 UMap.nil).2.2 =
      .ok (concatAll
        ((List.range (maxBucketLen (resolveLabels metricC3 resolveC3 UMap.nil).2.2)).map
          (fun i => funC3
            ((resolveLabels metricC3 resolveC3 UMap.nil).1 ++
              ((resolveLabels metricC3 resolveC3 UMap.nil).2.2).map Prod.fst)
            ((resolveLabels metricC3 resolveC3 UMap.nil).2.1 ++
              ((resolveLabels metricC3 resolveC3 UMap.nil).2.2).map
                (fun p => (sortStrings p.2).getD i "")))))) ∧
    (sortStrings ["v2", "v1"]).Sorted strLe ∧ (sortStrings ["v2", "v1"]).Perm ["v2", "v1"] :=
  ⟨(writeExpandedSamples_sorted_series funC3 metricC3 resolveC3 UMap.nil).1,
    (writeExpandedSamples_sorted_series funC3 metricC3 resolveC3 UMap.nil).2
      ("versions", ["v2", "v1"]) (by decide)⟩

set_option maxRecDepth 8192

/-! ## Scenario objects and the modelled CEL path evaluation -/

/-- Modelled from the spec: the external cel-go evaluation, restricted to
the dot-path fragment of CEL that the scenarios use.  Per section 4.1 of
the specification the CEL resolver exposes the object as the identifier o;
a dot-path query selects the addressed field.  Queries outside this
fragment and failing traversals are evaluation failures. -/
def celEvalPath : CELEval := fun query obj =>
  match splitOnChar '.' query with
  | "o" :: rest =>
      match walkPath (.map obj) rest with
      | some v => .ok v
      | none => .err
  | _ => .err

/-- Whether the needle is a leading piece of the haystack. -/
def isPrefOf : List Char → List Char → Bool
  | [], _ => true
  | _ :: _, [] => false
  | a :: as, b :: bs => a = b && isPrefOf as bs

/-- Whether the needle occurs anywhere in the haystack. -/
def containsSub : List Char → List Char → Bool
  | hay, needle =>
      if isPrefOf needle hay then true
      else
        match hay with
        | [] => false
        | _ :: t => containsSub t needle

/-- The MyPlatform object of scenario S4: spec.versions is ["v1", "v2"]. -/
def objC4 : UObject :=
  mapV
    [ ("apiVersion", .str "contoso.com/v1alpha1"), ("kind", .str "MyPlatform"),
      ("metadata", .map (mapV [("name", .str "test-sample"), ("uid", .str "uid-1")])),
      ("spec", .map (mapV [("versions", .list (listV [.str "v1", .str "v2"])),
        ("replicas", .int 3)])) ]

/-- The family of scenario S4: one metric with labelKey v and labelValue
o.spec.versions under the CEL resolver. -/
def famC4 : FamilyType :=
  { name := "f", help := "h",
    metrics := [{ labelKeys := ["v"], labelValues := ["o.spec.versions"],
                  value := "1", resolver := "cel" }],
    resolver := "", labelKeys := [], labelValues := [] }

/-- The Foo object of scenario S5. -/
def objC5 : UObject :=
  mapV
    [ ("apiVersion", .str "samplecontroller.k8s.io/v1alpha1"), ("kind", .str "Foo"),
      ("metadata", .map (mapV [("name", .str "test-sample"), ("uid", .str "uid-2")])) ]

/-- The family of scenario S5: labelKey static with the constant labelValue
"43-1" under the default (unstructured) resolver. -/
def famC5 : FamilyType :=
  { name := "foos_info", help := "h",
    metrics := [{ labelKeys := ["static"], labelValues := ["43-1"],
                  value := "42", resolver := "" }],
    resolver := "", labelKeys := [], labelValues := [] }

/-- The object of scenario S6. -/
def objC2 : UObject :=
  mapV
    [ ("apiVersion", .str "v1"), ("kind", .str "Pod"),
      ("metadata", .map (mapV [("name", .str "test-pod"), ("uid", .str "uid-3")])) ]

/-- The family of scenario S6: a metric with two label keys but three label
values. -/
def famC2 : FamilyType :=
  { name := "m", help := "h",
    metrics := [{ labelKeys := ["k1", "k2"], labelValues := ["m1", "m2", "m3"],
                  value := "42", resolver := "" }],
    resolver := "", labelKeys := [], labelValues := [] }

/-- Claim C2, the behaviour of the code at the failing input: a metric
whose labelKeys (two) and labelValues (three) differ in length has its
resolved label set emptied by the validation guard in resolveLabels, but
the metric itself is not dropped — the render continues and emits a sample
carrying only the group/version/kind labels, so output IS produced. -/
theorem lengthMismatch_still_emits_sample :
    resolveLabels (inheritMetricAttributes famC2
        { labelKeys := ["k1", "k2"], labelValues := ["m1", "m2", "m3"],
          value := "42", resolver := "" })
      UnstructuredResolver.Resolve objC2 = ([], [], []) ∧
    (buildMetricString celEvalPath famC2 objC2).1 =
      "kube_customresource_m\x7bgroup=\"\",version=\"v1\",kind=\"Pod\"\x7d 42.000000\n" ∧
    (buildMetricString celEvalPath famC2 objC2).1 ≠ "" := by
  refine ⟨by decide, by decide, by decide⟩

/-- Claim C4 counterexample: on scenario S4 the two emitted samples carry
the label versions="v1" and versions="v2" — the expansion label key is the
parent field name of the query, not the configured labelKey v — so the
claimed label v="v1" appears on no sample. -/
theorem listExpansion_label_not_labelKey :
    (buildMetricString celEvalPath famC4 objC4).1 =
      "kube_customresource_f\x7bversions=\"v1\",group=\"contoso.com\",version=\"v1alpha1\",kind=\"MyPlatform\"\x7d 1.000000\nkube_customresource_f\x7bversions=\"v2\",group=\"contoso.com\",version=\"v1alpha1\",kind=\"MyPlatform\"\x7d 1.000000\n" ∧
    containsSub ((buildMetricString celEvalPath famC4 objC4).1).data ("v=\"v1\"").data = false ∧
    containsSub ((buildMetricString celEvalPath famC4 objC4).1).data ("v=\"v2\"").data = false := by
  refine ⟨by decide, by decide, by decide⟩

/-- Claim C4 as amended: on scenario S4 exactly two samples are emitted,
in ascending sorted order of the expanded values, carrying the labels
versions="v1" and versions="v2" — the label key is the last dotted
component of the expanded query. -/
theorem listExpansion_two_sorted_samples :
    resolveLabels (inheritMetricAttributes famC4
        { labelKeys := ["v"], labelValues := ["o.spec.versions"],
          value := "1", resolver := "cel" })
      (CELResolver.Resolve celEvalPath) objC4 =
      ([], [], [("versions", ["v1", "v2"])]) ∧
    (buildMetricString celEvalPath famC4 objC4).1 =
      "kube_customresource_f\x7bversions=\"v1\",group=\"contoso.com\",version=\"v1alpha1\",kind=\"MyPlatform\"\x7d 1.000000\n" ++
      "kube_customresource_f\x7bversions=\"v2\",group=\"contoso.com\",version=\"v1alpha1\",kind=\"MyPlatform\"\x7d 1.000000\n" := by
  refine ⟨by decide, by decide⟩

/-- Claim C5: every failing resolution returns exactly the singleton
sentinel mapping from the expression to itself — the CEL resolver on an
evaluation failure or a timeout, and the unstructured resolver on a failing
traversal — and the family renderer consumes the sentinel as a literal,
emitting a label whose value is the expression string verbatim; on scenario
S5 the constant labelValue "43-1" under labelKey static yields the label
static="43-1" on the emitted sample. -/
theorem sentinel_resolution_yields_literal_label :
    (∀ (eval : CELEval) (query : String) (obj : UObject),
      eval query obj = .err → CELResolver.Resolve eval query obj = [(query, query)]) ∧
    (∀ (eval : CELEval) (query : String) (obj : UObject),
      eval query obj = .timeout → CELResolver.Resolve eval query obj = [(query, query)]) ∧
    (∀ (query : String) (obj : UObject),
      walkPath (.map obj) (splitOnChar '.' query) = none →
      UnstructuredResolver.Resolve query obj = [(query, query)]) ∧
    (∀ (key expr value resolver : String)
      (resolve : String → UObject → List (String × String)) (obj : UObject),
      resolve expr obj = [(expr, expr)] →
      resolveLabels ⟨[key], [expr], value, resolver⟩ resolve obj =
        ([sanitizeKey key], [expr], [])) ∧
    (buildMetricString celEvalPath famC5 objC5).1 =
      "kube_customresource_foos_info\x7bstatic=\"43-1\",group=\"samplecontroller.k8s.io\",version=\"v1alpha1\",kind=\"Foo\"\x7d 42.000000\n" := by
  refine ⟨?_, ?_, ?_, ?_, by decide⟩
  · intro eval query obj h
    rw [CELResolver.Resolve, h]
    rfl
  · intro eval query obj h
    rw [CELResolver.Resolve, h]
    rfl
  · intro query obj h
    rw [UnstructuredResolver.Resolve, h]
  · intro key expr value resolver resolve obj h
    rw [resolveLabels]
    have hv : validateLabelLengths [key] [expr] = .ok () := by
      simp [validateLabelLengths]
    rw [hv]
    simp only [List.zip, List.zipWith]
    rw [resolveLabelsLoop, h]
    simp only [mapLookup, if_pos rfl]
    rfl

/-- Claim C5 witness. -/
theorem sentinel_resolution_yields_literal_label_witness :
    CELResolver.Resolve (fun _ _ => .err) "43-1" UMap.nil = [("43-1", "43-1")] ∧
    CELResolver.Resolve (fun _ _ => .timeout) "43-1" UMap.nil = [("43-1", "43-1")] ∧
    UnstructuredResolver.Resolve "43-1" UMap.nil = [("43-1", "43-1")] ∧
    resolveLabels ⟨["static"], ["43-1"], "42", ""⟩ UnstructuredResolver.Resolve UMap.nil =
      ([sanitizeKey "static"], ["43-1"], []) :=
  ⟨sentinel_resolution_yields_literal_label.1 (fun _ _ => .err) "43-1" UMap.nil rfl,
    sentinel_resolution_yields_literal_label.2.1 (fun _ _ => .timeout) "43-1" UMap.nil rfl,
    sentinel_resolution_yields_literal_label.2.2.1 "43-1" UMap.nil rfl,
    sentinel_resolution_yields_literal_label.2.2.2.1 "static" "43-1" "42" ""
      UnstructuredResolver.Resolve UMap.nil (by decide)⟩

/-! ## The store invariant (claim C6) -/

theorem generateMetricsLoop_length (eval : CELEval) (s : StoreType) (obj : UObject) :
    ∀ fams : List FamilyType,
      (generateMetricsLoop eval s obj fams).1.length = fams.length ∧
      (generateMetricsLoop eval s obj fams).2.length = fams.length := by
  intro fams
  induction fams with
  | nil => exact ⟨rfl, rfl⟩
  | cons f rest ih =>
      simp only [generateMetricsLoop, List.length_cons]
      exact ⟨by rw [ih.1], by rw [ih.2]⟩

theorem metricsLookup_mem (m : List (String × List String)) (u : String)
    (fr : List String) (h : metricsLookup m u = some fr) : (u, fr) ∈ m := by
  induction m with
  | nil => exact absurd h (by simp [metricsLookup])
  | cons p rest ih =>
      obtain ⟨k0, v0⟩ := p
      by_cases hk : k0 = u
      · subst hk
        rw [metricsLookup, if_pos rfl] at h
        cases h
        exact List.mem_cons_self _ _
      · rw [metricsLookup, if_neg hk] at h
        exact List.mem_cons_of_mem _ (ih h)

theorem mem_metricsSet (m : List (String × List String)) (k : String) (v : List String)
    (p : String × List String) (h : p ∈ metricsSet m k v) : p.2 = v ∨ p ∈ m := by
  induction m with
  | nil =>
      rw [metricsSet] at h
      rcases List.mem_singleton.mp h with rfl
      exact Or.inl rfl
  | cons q rest ih =>
      obtain ⟨k0, v0⟩ := q
      by_cases hk : k0 = k
      · rw [metricsSet, if_pos hk] at h
        rcases List.mem_cons.mp h with rfl | hm
        · exact Or.inl rfl
        · exact Or.inr (List.mem_cons_of_mem _ hm)
      · rw [metricsSet, if_neg hk] at h
        rcases List.mem_cons.mp h with rfl | hm
        · exact Or.inr (List.mem_cons_self _ _)
        · rcases ih hm with hv | hm2
          · exact Or.inl hv
          · exact Or.inr (List.mem_cons_of_mem _ hm2)

theorem mem_metricsDelete (m : List (String × List String)) (k : String)
    (p : String × List String) (h : p ∈ metricsDelete m k) : p ∈ m := by
  induction m with
  | nil => exact absurd h (by simp [metricsDelete])
  | cons q rest ih =>
      obtain ⟨k0, v0⟩ := q
      by_cases hk : k0 = k
      · rw [metricsDelete, if_pos hk] at h
        exact List.mem_cons_of_mem _ h
      · rw [metricsDelete, if_neg hk] at h
        rcases List.mem_cons.mp h with rfl | hm
        · exact List.mem_cons_self _ _
        · exact List.mem_cons_of_mem _ (ih hm)

/-- The strengthened store invariant: headers track the family count, and
every stored fragment slice has one entry per header. -/
def StoreInv (s : StoreType) : Prop :=
  s.headers.length = s.families.length ∧
    ∀ p ∈ s.metrics, p.2.length = s.headers.length

theorem add_preserves_inv (eval : CELEval) (s s' : StoreType) (x : ObjectI)
    (hadd : s.Add eval x = .ok s') (hinv : StoreInv s) : StoreInv s' := by
  rw [StoreType.Add] at hadd
  rcases hcv : convertToUnstructured x with e | obj
  · rw [hcv] at hadd; exact absurd hadd (by simp)
  · rw [hcv] at hadd
    simp only [Except.ok.injEq] at hadd
    subst hadd
    obtain ⟨hlen, hfr⟩ := hinv
    have hloop := generateMetricsLoop_length eval s obj s.families
    constructor
    · simp only [StoreType.generateMetricsForObject]
      rw [hloop.2, hlen]
    · intro p hp
      simp only [StoreType.generateMetricsForObject] at hp ⊢
      rcases mem_metricsSet _ _ _ _ hp with hv | hm
      · rw [hv, hloop.1, hlen]
      · exact hfr p hm

theorem replaceFold_preserves_inv (eval : CELEval) :
    ∀ (items : List ObjectI) (s : StoreType), StoreInv s →
    StoreInv (items.foldl (fun st it =>
      match st.Add eval it with
      | .ok st2 => st2
      | .error _ => st) s) := by
  intro items
  induction items with
  | nil => exact fun s h => h
  | cons x rest ih =>
      intro s hinv
      rw [List.foldl_cons]
      rcases hadd : s.Add eval x with e | s2
      · simpa [hadd] using ih s hinv
      · simpa [hadd] using ih s2 (add_preserves_inv eval s s2 x hadd hinv)

/-- The store states reachable through the cache-store contract: a store
constructed by buildStore, then any sequence of Add, Update, Delete and
Replace calls that completed. -/
inductive ReachableStore (eval : CELEval) : StoreType → Prop where
  | base (families : List FamilyType) (resolver : String)
      (labelKeys labelValues : List String) :
      ReachableStore eval (buildStore families resolver labelKeys labelValues)
  | add (s s' : StoreType) (x : ObjectI) :
      ReachableStore eval s → s.Add eval x = .ok s' → ReachableStore eval s'
  | update (s s' : StoreType) (x : ObjectI) :
      ReachableStore eval s → s.Update eval x = .ok s' → ReachableStore eval s'
  | del (s s' : StoreType) (x : ObjectI) :
      ReachableStore eval s → s.Delete x = .ok s' → ReachableStore eval s'
  | repl (s s' : StoreType) (items : List ObjectI) :
      ReachableStore eval s → s.Replace eval items = .ok s' → ReachableStore eval s'

theorem reachable_inv (eval : CELEval) (s : StoreType)
    (h : ReachableStore eval s) : StoreInv s := by
  induction h with
  | base families resolver labelKeys labelValues =>
      constructor
      · simp [buildStore, newStore, buildMetricHeaders]
      · intro p hp
        exact absurd hp (by simp [buildStore, newStore])
  | add s s' x _ hadd ih => exact add_preserves_inv eval s s' x hadd ih
  | update s s' x _ hadd ih => exact add_preserves_inv eval s s' x hadd ih
  | del s s' x _ hdel ih =>
      rw [StoreType.Delete.eq_def] at hdel
      rcases x with o | r
      · simp only [Except.ok.injEq] at hdel
        subst hdel
        exact ⟨ih.1, fun p hp => ih.2 p (mem_metricsDelete _ _ _ hp)⟩
      · exact absurd hdel (by simp)
  | repl s s' items _ hrep ih =>
      rw [StoreType.Replace] at hrep
      simp only [Except.ok.injEq] at hrep
      subst hrep
      exact replaceFold_preserves_inv eval items s ih

/-- Claim C6: for every store reachable through buildStore and any
completed sequence of Add, Update, Delete, Replace calls, every UID present
in the metrics map holds a fragment slice with exactly one entry per
header: len(metrics[uid]) = len(headers). -/
theorem store_metrics_length_matches_headers (eval : CELEval) (s : StoreType)
    (h : ReachableStore eval s) (u : String) (fr : List String)
    (hlook : metricsLookup s.metrics u = some fr) : fr.length = s.headers.length :=
  (reachable_inv eval s h).2 (u, fr) (metricsLookup_mem s.metrics u fr hlook)

/-- The base store of the claim C6 witness. -/
def storeW0 : StoreType := buildStore [famC5] "" [] []

/-- The claim C6 witness store: the base store after one Add. -/
def storeW1 : StoreType :=
  match storeW0.Add celEvalPath (.unstructuredObj objC5) with
  | .ok s => s
  | .error _ => storeW0

/-- The fragment slice the claim C6 witness inspects. -/
def fragsW : List String := (metricsLookup storeW1.metrics "uid-2").getD []

/-- Claim C6 witness. -/
theorem store_metrics_length_matches_headers_witness :
    fragsW.length = storeW1.headers.length :=
  store_metrics_length_matches_headers celEvalPath storeW1
    (ReachableStore.add storeW0 storeW1 (.unstructuredObj objC5)
      (ReachableStore.base [famC5] "" [] []) (by rfl))
    "uid-2" fragsW (by rfl)

/-! ## Replace adds every item (claim C7) -/

theorem metricsSet_lookup_isSome (m : List (String × List String)) (k u : String)
    (v : List String) (h : (metricsLookup m u).isSome = true) :
    (metricsLookup (metricsSet m k v) u).isSome = true := by
  induction m with
  | nil => exact absurd h (by simp [metricsLookup])
  | cons p rest ih =>
      obtain ⟨k0, v0⟩ := p
      by_cases hk : k0 = k
      · subst hk
        by_cases hu : k0 = u
        · subst hu
          simp [metricsSet, metricsLookup]
        · rw [metricsLookup, if_neg hu] at h
          simp [metricsSet, metricsLookup, hu, h]
      · by_cases hu : k0 = u
        · subst hu
          simp [metricsSet, metricsLookup, hk]
        · rw [metricsLookup, if_neg hu] at h
          simp [metricsSet, metricsLookup, hk, hu, ih h]

theorem metricsSet_lookup_self (m : List (String × List String)) (k : String)
    (v : List String) : metricsLookup (metricsSet m k v) k = some v := by
  induction m with
  | nil => simp [metricsSet, metricsLookup]
  | cons p rest ih =>
      obtain ⟨k0, v0⟩ := p
      by_cases hk : k0 = k
      · simp [metricsSet, metricsLookup, hk]
      · simp only [metricsSet, if_neg hk]
        rw [metricsLookup, if_neg hk]
        exact ih

theorem add_lookup_isSome (eval : CELEval) (s s' : StoreType) (x : ObjectI) (u : String)
    (hadd : s.Add eval x = .ok s') (h : (metricsLookup s.metrics u).isSome = true) :
    (metricsLookup s'.metrics u).isSome = true := by
  rw [StoreType.Add] at hadd
  rcases hcv : convertToUnstructured x with e | obj
  · rw [hcv] at hadd; exact absurd hadd (by simp)
  · rw [hcv] at hadd
    simp only [Except.ok.injEq] at hadd
    subst hadd
    exact metricsSet_lookup_isSome _ _ _ _ h

theorem addOrKeep_lookup_isSome (eval : CELEval) (s : StoreType) (x : ObjectI) (u : String)
    (h : (metricsLookup s.metrics u).isSome = true) :
    (metricsLookup
      (match s.Add eval x with
        | .ok st2 => st2
        | .error _ => s).metrics u).isSome = true := by
  rcases hadd : s.Add eval x with e | s2
  · exact h
  · exact add_lookup_isSome eval s s2 x u hadd h

theorem replaceFold_lookup_isSome (eval : CELEval) :
    ∀ (items : List ObjectI) (s : StoreType) (u : String),
    (metricsLookup s.metrics u).isSome = true →
    (metricsLookup ((items.foldl (fun st it =>
      match st.Add eval it with
      | .ok st2 => st2
      | .error _ => st) s)).metrics u).isSome = true := by
  intro items
  induction items with
  | nil => exact fun s u h => h
  | cons x rest ih =>
      intro s u h
      rw [List.foldl_cons]
      exact ih _ u (addOrKeep_lookup_isSome eval s x u h)

/-- Claim C7: Replace invokes Add on every item in order (the fold below is
exactly that loop); a failing Add leaves the store untouched and the
remaining items are still added; Replace itself returns nil; and afterwards
the store holds rendered fragments under the UID of every item the
converter accepted. -/
theorem replace_processes_all_items (eval : CELEval) (s : StoreType)
    (items : List ObjectI) :
    ∃ s', StoreType.Replace s eval items = .ok s' ∧
      s' = items.foldl (fun st it =>
        match st.Add eval it with
        | .ok st2 => st2
        | .error _ => st) s ∧
      ∀ x ∈ items, ∀ o, convertToUnstructured x = .ok o →
        (metricsLookup s'.metrics (objectUID o)).isSome = true := by
  refine ⟨_, rfl, rfl, ?_⟩
  intro x hx o hcv
  revert hx
  induction items generalizing s with
  | nil => intro hx; exact absurd hx (by simp)
  | cons y rest ih =>
      intro hx
      rw [List.foldl_cons]
      rcases List.mem_cons.mp hx with rfl | hxr
      · -- the item itself is added here; its UID stays present afterwards
        rcases hadd : s.Add eval x with e | s2
        · rw [StoreType.Add, hcv] at hadd
          exact absurd hadd (by simp)
        · have hself : (metricsLookup s2.metrics (objectUID o)).isSome = true := by
            rw [StoreType.Add, hcv] at hadd
            simp only [Except.ok.injEq] at hadd
            subst hadd
            rw [metricsSet_lookup_self]
            rfl
          exact replaceFold_lookup_isSome eval rest s2 (objectUID o) hself
      · rcases hadd : s.Add eval y with e | s2
        · exact ih s hxr
        · exact ih s2 hxr

/-- The failing first item of the claim C7 witness. -/
def badItem : ObjectI := .invalid "not convertible"

/-- Claim C7 witness: a failing item followed by a convertible one; the
theorem is applied to show the convertible item landed in the store. -/
theorem replace_processes_all_items_witness :
    ∃ s', StoreType.Replace storeW0 celEvalPath [badItem, .unstructuredObj objC5] = .ok s' ∧
      s' = [badItem, .unstructuredObj objC5].foldl (fun st it =>
        match st.Add celEvalPath it with
        | .ok st2 => st2
        | .error _ => st) storeW0 ∧
      ∀ x ∈ [badItem, .unstructuredObj objC5], ∀ o, convertToUnstructured x = .ok o →
        (metricsLookup s'.metrics (objectUID o)).isSome = true :=
  replace_processes_all_items celEvalPath storeW0 [badItem, .unstructuredObj objC5]

/-! ## Flag and environment-variable precedence (claim C8) -/

/-- The main-port flag of Options.Read. -/
def mainPortFlag : FlagSpec := ⟨"main-port", "9999"⟩

/-- Claim C8 counterexample: a flag explicitly set on the command line to a
value equal to its default is still overridden by the environment variable,
because the override loop compares values, not whether the flag was set —
so the set value "9999" is NOT used and the claim fails at this input. -/
theorem explicit_default_flag_overridden :
    mapLookup [("main-port", "9999")] mainPortFlag.name = some "9999" ∧
    readFlagValue [("main-port", "9999")] [("RSM_MAIN_PORT", "1234")] mainPortFlag = "1234" ∧
    readFlagValue [("main-port", "9999")] [("RSM_MAIN_PORT", "1234")] mainPortFlag ≠ "9999" := by
  refine ⟨by decide, by decide, by decide⟩

/-- Claim C8 as amended: a flag whose parsed value differs from its default
wins over the environment variable; the RSM_ variable supplies the value
exactly when the flag value equals its default — whether the flag was left
unset or explicitly set to the default. -/
theorem flag_env_precedence (args env : List (String × String)) (f : FlagSpec) :
    (∀ v, mapLookup args f.name = some v → v ≠ f.defValue →
      readFlagValue args env f = v) ∧
    (flagValueAfterParse args f = f.defValue →
      readFlagValue args env f =
        match mapLookup env (flagEnvVarName f.name) with
        | some v => v
        | none => f.defValue) := by
  constructor
  · intro v hv hne
    rw [readFlagValue, flagValueAfterParse, hv]
    simp only [Option.getD_some]
    rw [applyEnvOverride, if_pos hne]
  · intro hdef
    rw [readFlagValue, applyEnvOverride, if_neg (by simp [hdef]), hdef]

/-- Claim C8 amended witness. -/
theorem flag_env_precedence_witness :
    readFlagValue [("main-port", "4242")] [("RSM_MAIN_PORT", "1234")] mainPortFlag = "4242" ∧
    readFlagValue [] [("RSM_SELF_PORT", "5678")] ⟨"self-port", "9998"⟩ =
      match mapLookup [("RSM_SELF_PORT", "5678")] (flagEnvVarName "self-port") with
      | some v => v
      | none => "9998" :=
  ⟨(flag_env_precedence [("main-port", "4242")] [("RSM_MAIN_PORT", "1234")] mainPortFlag).1
      "4242" (by decide) (by decide),
    (flag_env_precedence [] [("RSM_SELF_PORT", "5678")] ⟨"self-port", "9998"⟩).2 (by decide)⟩

/-! ## Condition updates (claim C9) -/

theorem replaceOrAppend_types (conds : List MetaCondition) (c : MetaCondition) :
    (replaceOrAppendCondition conds c).map MetaCondition.condType =
      if c.condType ∈ conds.map MetaCondition.condType then
        conds.map MetaCondition.condType
      else conds.map MetaCondition.condType ++ [c.condType] := by
  induction conds with
  | nil => simp [replaceOrAppendCondition]
  | cons c0 rest ih =>
      by_cases hk : c0.condType = c.condType
      · rw [replaceOrAppendCondition, if_pos hk]
        simp [hk]
      · rw [replaceOrAppendCondition, if_neg hk]
        have hmem : (c.condType ∈ (c0 :: rest).map MetaCondition.condType) ↔
            c.condType ∈ rest.map MetaCondition.condType := by
          constructor
          · intro hx
            rw [List.map_cons] at hx
            rcases List.mem_cons.mp hx with he | hx2
            · exact absurd he.symm hk
            · exact hx2
          · intro hx
            rw [List.map_cons]
            exact List.mem_cons_of_mem _ hx
        by_cases hm : c.condType ∈ rest.map MetaCondition.condType
        · simp only [List.map_cons, ih, if_pos hm, hmem.mpr hm, if_true, eq_self_iff_true]
          simp [hm]
        · rw [List.map_cons, ih, if_neg hm, if_neg (fun hx => hm (hmem.mp hx))]
          simp

theorem replaceOrAppend_nodup (conds : List MetaCondition) (c : MetaCondition)
    (h : (conds.map MetaCondition.condType).Nodup) :
    ((replaceOrAppendCondition conds c).map MetaCondition.condType).Nodup := by
  rw [replaceOrAppend_types]
  by_cases hm : c.condType ∈ conds.map MetaCondition.condType
  · rw [if_pos hm]; exact h
  · rw [if_neg hm]
    refine List.Nodup.append h (List.nodup_singleton _) ?_
    intro a ha hb
    rw [List.mem_singleton] at hb
    exact hm (hb ▸ ha)

theorem mem_replaceOrAppend_of_type (conds : List MetaCondition) (c : MetaCondition)
    (hnd : (conds.map MetaCondition.condType).Nodup) :
    ∀ c' ∈ replaceOrAppendCondition conds c, c'.condType = c.condType → c' = c := by
  induction conds with
  | nil =>
      intro c' hc' _
      rw [replaceOrAppendCondition] at hc'
      exact List.mem_singleton.mp hc'
  | cons c0 rest ih =>
      intro c' hc' htype
      simp only [List.map_cons, List.nodup_cons] at hnd
      obtain ⟨h0, hrest⟩ := hnd
      by_cases hk : c0.condType = c.condType
      · rw [replaceOrAppendCondition, if_pos hk] at hc'
        rcases List.mem_cons.mp hc' with rfl | hm
        · rfl
        · exfalso
          apply h0
          rw [hk, ← htype]
          exact List.mem_map_of_mem MetaCondition.condType hm
      · rw [replaceOrAppendCondition, if_neg hk] at hc'
        rcases List.mem_cons.mp hc' with rfl | hm
        · exact absurd htype hk
        · exact ih hrest c' hm htype

/-- Claim C9: ResourceMetricsMonitorStatus.Set preserves at-most-one
condition per type — a condition whose type already exists replaces that
entry in place, leaving the type sequence unchanged, otherwise the
condition is appended — and the stored Reason and Message always come from
the fixed tables keyed by condition type and status, so any caller-supplied
Message is discarded (Set does not depend on it at all). -/
theorem status_set_unique_and_tabled (st : ResourceMetricsMonitorStatus) (gen : Int)
    (cond : MetaCondition) (now : Nat) (st' : ResourceMetricsMonitorStatus)
    (hset : st.Set gen cond now = some st')
    (hnd : (st.conditions.map MetaCondition.condType).Nodup) :
    (st'.conditions.map MetaCondition.condType).Nodup ∧
    (cond.condType ∈ st.conditions.map MetaCondition.condType →
      st'.conditions.map MetaCondition.condType =
        st.conditions.map MetaCondition.condType) ∧
    (cond.condType ∉ st.conditions.map MetaCondition.condType →
      st'.conditions.map MetaCondition.condType =
        st.conditions.map MetaCondition.condType ++ [cond.condType]) ∧
    (∃ i, List.indexOf? cond.condType ConditionType = some i ∧
      ∀ c' ∈ st'.conditions, c'.condType = cond.condType →
        c'.reason = tableReason i cond.status ∧
        c'.message = tableMessage i cond.status) ∧
    (∀ msg, st.Set gen { cond with message := msg } now = some st') := by
  rw [ResourceMetricsMonitorStatus.Set] at hset
  rcases hidx : List.indexOf? cond.condType ConditionType with _ | i
  · rw [hidx] at hset; exact absurd hset (by simp)
  · rw [hidx] at hset
    simp only [Option.some.injEq] at hset
    subst hset
    refine ⟨?_, ?_, ?_, ⟨i, rfl, ?_⟩, ?_⟩
    · exact replaceOrAppend_nodup _ _ hnd
    · intro hm
      simp only [replaceOrAppend_types]
      rw [if_pos hm]
    · intro hm
      simp only [replaceOrAppend_types]
      rw [if_neg hm]
    · intro c' hc' htype
      have hform := mem_replaceOrAppend_of_type st.conditions _ hnd c' hc' htype
      rw [hform]
      exact ⟨rfl, rfl⟩
    · intro msg
      obtain ⟨t, stt, rs, ms, lt, og⟩ := cond
      rw [ResourceMetricsMonitorStatus.Set]
      simp only at hidx ⊢
      rw [hidx]

/-- The condition of the claim C9 witness, carrying a caller-supplied
message that Set must discard. -/
def condW : MetaCondition := ⟨"Processed", "True", "", "caller-supplied", 0, 0⟩

/-- The empty status of the claim C9 witness. -/
def statusW : ResourceMetricsMonitorStatus := ⟨[]⟩

/-- The status the claim C9 witness ends with. -/
def statusW2 : ResourceMetricsMonitorStatus :=
  match statusW.Set 7 condW 5 with
  | some st => st
  | none => statusW

/-- Claim C9 witness. -/
theorem status_set_unique_and_tabled_witness :
    (statusW2.conditions.map MetaCondition.condType).Nodup ∧
    (condW.condType ∈ statusW.conditions.map MetaCondition.condType →
      statusW2.conditions.map MetaCondition.condType =
        statusW.conditions.map MetaCondition.condType) ∧
    (condW.condType ∉ statusW.conditions.map MetaCondition.condType →
      statusW2.conditions.map MetaCondition.condType =
        statusW.conditions.map MetaCondition.condType ++ [condW.condType]) ∧
    (∃ i, List.indexOf? condW.condType ConditionType = some i ∧
      ∀ c' ∈ statusW2.conditions, c'.condType = condW.condType →
        c'.reason = tableReason i condW.status ∧
        c'.message = tableMessage i condW.status) ∧
    (∀ msg, statusW.Set 7 { condW with message := msg } 5 = some statusW2) :=
  status_set_unique_and_tabled statusW 7 condW 5 statusW2 (by rfl) (by decide)
